import Mathlib

/-!
# Verification of the d3-mcp-server content-extraction and search core

This file gives a shallow embedding, in Lean 4, of the pure text-processing
core of the `d3_mcp_server` Python package (`search.py`, `examples.py`,
`cache.py`) and proves properties of that embedding.

Conventions of the embedding:
* Python strings are Lean `String`s, but all computation is done on the
  underlying `List Char` (`String.data`) with structural recursion, so every
  definition evaluates inside the kernel (`decide` / `rfl`).
* Python's `str.lower` is modelled with `Char.toLower`; the two agree on the
  ASCII text this server processes.  Python's whitespace class is modelled
  with `Char.isWhitespace` (space, tab, CR, LF).
* Regular-expression scans of the source are hand-compiled into equivalent
  deterministic scanners; each carries a comment naming the Python regex it
  implements.
* Recursive scanners whose measure is not structural take an explicit fuel
  argument; wrappers pass a fuel that is at least the input length plus one,
  which is enough because every step consumes at least one character.
* The file-system cache and the HTTP fetch are modelled as explicit state:
  a cache is a map from file locations to contents, and the single HTTP
  response (or transport failure) is an input of the fetch function.
-/

namespace D3MCP

set_option maxRecDepth 100000

/-! ## Python string primitives over `List Char` -/

/-- Python `str.lower()` (ASCII range, which covers the server's data). -/
def pyLower (s : String) : String := ⟨s.data.map Char.toLower⟩

/-- Is `needle` a prefix of `hay`?  (Bool, structural.) -/
def startsSeq : List Char → List Char → Bool
  | [], _ => true
  | _ :: _, [] => false
  | a :: as, b :: bs => a == b && startsSeq as bs

/-- Does `needle` occur contiguously in `hay`?  Python's `needle in hay`. -/
def containsSeq (needle : List Char) : List Char → Bool
  | [] => needle.isEmpty
  | b :: rest => startsSeq needle (b :: rest) || containsSeq needle rest

/-- Python `needle in hay` on strings (substring containment). -/
def pyIn (needle hay : String) : Bool := containsSeq needle.data hay.data

/-- Python `s.startswith(pre)`. -/
def pyStartsWith (pre s : String) : Bool := startsSeq pre.data s.data

/-- Whitespace-splitting: Python `str.split()` with no separator
(split on whitespace runs, no empty pieces). -/
def splitWsAux (cur : List Char) : List Char → List (List Char)
  | [] => if cur.isEmpty then [] else [cur.reverse]
  | c :: rest =>
    if c.isWhitespace then
      (if cur.isEmpty then splitWsAux [] rest else cur.reverse :: splitWsAux [] rest)
    else splitWsAux (c :: cur) rest

/-- Python `s.split()` (whitespace, empties dropped). -/
def pySplitWs (s : String) : List String := (splitWsAux [] s.data).map (fun l => ⟨l⟩)

/-- Single-character separator split: Python `s.split(sep)` for a
one-character `sep` (keeps empty pieces). -/
def splitCharAux (sep : Char) (cur : List Char) : List Char → List (List Char)
  | [] => [cur.reverse]
  | c :: rest =>
    if c == sep then cur.reverse :: splitCharAux sep [] rest
    else splitCharAux sep (c :: cur) rest

/-- Python `s.split(sep)` for a one-character separator. -/
def pySplitChar (sep : Char) (s : String) : List String :=
  (splitCharAux sep [] s.data).map (fun l => ⟨l⟩)

/-- Strip trailing characters satisfying `p`. -/
def dropTrailing (p : Char → Bool) (l : List Char) : List Char :=
  (l.reverse.dropWhile p).reverse

/-- Python `s.strip()` on a character list. -/
def trimChars (l : List Char) : List Char :=
  dropTrailing Char.isWhitespace (l.dropWhile Char.isWhitespace)

/-- Python `s.strip()`. -/
def pyStrip (s : String) : String := ⟨trimChars s.data⟩

/-- Python `sep.join(parts)`. -/
def pyJoin (sep : String) : List String → String
  | [] => ""
  | [x] => x
  | x :: xs => x ++ sep ++ pyJoin sep xs

/-- Substring occurrence as a proposition: `hay` has `needle` as a
contiguous piece (stated over the underlying character lists). -/
def strHas (needle hay : String) : Prop := ∃ u v, hay.data = u ++ needle.data ++ v

/-! ## `search.py`: query tokenization (`_split_terms`) -/

/-- `_CAMEL_RE.findall`: the Python regex `[a-z]+|[A-Z][a-z]*` scanned left
to right.  At a lowercase letter it takes the maximal lowercase run, at an
uppercase letter the letter plus the following maximal lowercase run, and any
other character is skipped.  `fuel` bounds the iteration count; every step
consumes at least one character, so `fuel = length` is always enough. -/
def camelFindall (fuel : Nat) (l : List Char) : List (List Char) :=
  match l with
  | [] => []
  | c :: rest =>
    match fuel with
    | 0 => []
    | fuel + 1 =>
      if c.isLower then
        (c :: rest.takeWhile Char.isLower) :: camelFindall fuel (rest.dropWhile Char.isLower)
      else if c.isUpper then
        (c :: rest.takeWhile Char.isLower) :: camelFindall fuel (rest.dropWhile Char.isLower)
      else camelFindall fuel rest

/-- The camel-case pieces of one token (`_CAMEL_RE.findall(token)`). -/
def camelParts (l : List Char) : List (List Char) := camelFindall l.length l

/-- `search._split_terms`: split a query into lowercase terms, decomposing
camelCase.  For each whitespace token, if the regex decomposition has more
than one piece, emit the lowercased pieces followed by the lowercased token,
else just the lowercased token. -/
def _split_terms (query : String) : List String :=
  (pySplitWs query).foldr
    (fun token acc =>
      let parts : List String := (camelParts token.data).map (fun p => ⟨p.map Char.toLower⟩)
      (if parts.length > 1 then parts ++ [pyLower token] else [pyLower token]) ++ acc)
    []

/-! ## `search.py`: module scoring (`score_modules`) -/

/-- `modules.D3Module` (pydantic model): name, description, tags, pages. -/
structure D3Module where
  name : String
  description : String
  tags : List String
  pages : List String
deriving DecidableEq

/-- `modules.BASE_URL`. -/
def BASE_URL : String := "https://d3js.org"

/-- The score one module accumulates over the query terms
(the loop body of `score_modules`).  Weights: name or short name 10,
exact tag 3, description word 2, partial tag substring 1, all additive. -/
def moduleScore (terms : List String) (m : D3Module) : Nat :=
  let name_lower := pyLower m.name
  let short_name := if pyStartsWith "d3-" name_lower then ⟨name_lower.data.drop 3⟩ else name_lower
  let desc_words := pySplitWs (pyLower m.description)
  let tags_lower := m.tags.map pyLower
  terms.foldl
    (fun score term =>
      let s1 := if term = name_lower ∨ term = short_name then score + 10 else score
      let s2 := if tags_lower.contains term then s1 + 3 else s1
      let s3 := if desc_words.contains term then s2 + 2 else s2
      if tags_lower.any (fun tag => pyIn term tag) then s3 + 1 else s3)
    0

/-- Stable descending insertion by score: `x` goes after every element whose
score is at least `x`'s.  This is the arrangement Python's stable
`list.sort(key=score, reverse=True)` produces. -/
def insertDesc {α : Type} (x : α × Nat) : List (α × Nat) → List (α × Nat)
  | [] => [x]
  | y :: ys => if x.2 ≤ y.2 then y :: insertDesc x ys else x :: y :: ys

/-- Stable sort, descending by score (models `list.sort(key=lambda x: x[1],
reverse=True)`, which is a stable descending sort by the score field). -/
def sortDesc {α : Type} (l : List (α × Nat)) : List (α × Nat) :=
  l.foldl (fun acc x => insertDesc x acc) []

/-- The scored module records in input order, zero scores dropped
(the accumulation loop of `score_modules` before the sort). -/
def modulePairs (query : String) (modules : List D3Module) : List (D3Module × Nat) :=
  (modules.map (fun m => (m, moduleScore (_split_terms query) m))).filter (fun p => 0 < p.2)

/-- `search.score_modules`: (module, score) pairs, positives only, sorted by
score descending, ties in input order. -/
def score_modules (query : String) (modules : List D3Module) : List (D3Module × Nat) :=
  sortDesc (modulePairs query modules)

/-! ## `search.py`: section parsing (`parse_sections`) -/

/-- `search.Section` (pydantic model). -/
structure Section where
  heading : String
  content : String
deriving DecidableEq

/-- The markdown-heading regex `^(#{2,3})\s+(.+)` of `parse_sections`,
reduced to the number of `#` characters the match consumes: `re.match`
succeeds iff the line starts with exactly two or three `#`, followed by at
least one whitespace character and then at least one further character.
(`#{2,3}` is greedy with backtracking; four or more `#` make both the
three-`#` and the two-`#` alternatives fail, because the character after the
consumed hashes is another `#`, not whitespace.) -/
def headingHashes (l : List Char) : Option Nat :=
  match l with
  | '#' :: '#' :: '#' :: c :: _ :: _ =>
    if c.isWhitespace then some 3 else none
  | '#' :: '#' :: c :: _ :: _ =>
    if c.isWhitespace then some 2 else none
  | _ => none

/-- The heading text of a matched heading line: `group(2).strip()` equals the
line with its hashes dropped, stripped (the greedy `\s+` eats the space
between, and `strip` removes whatever whitespace is left on either side). -/
def headingText (l : List Char) (k : Nat) : String := ⟨trimChars (l.drop k)⟩

/-- Case-insensitive literal match: does `hay` start with `lit` up to ASCII
case?  Used for the case-insensitive parts of `_ANCHOR_RE`. -/
def startsSeqCI : List Char → List Char → Bool
  | [], _ => true
  | _ :: _, [] => false
  | a :: as, b :: bs => a.toLower == b.toLower && startsSeqCI as bs

/-- After `name` or `id` in `_ANCHOR_RE`: `\s*=\s*["\']([^"\']+)["\']` —
skip whitespace, expect `=`, skip whitespace, expect a quote, capture the
maximal nonempty run of non-quote characters, expect a quote. -/
def anchorValue (cs : List Char) : Option String :=
  match cs.dropWhile Char.isWhitespace with
  | '=' :: cs1 =>
    match cs1.dropWhile Char.isWhitespace with
    | q :: cs2 =>
      if q == '"' || q == '\x27' then
        let v := cs2.takeWhile (fun c => !(c == '"' || c == '\x27'))
        match v, cs2.dropWhile (fun c => !(c == '"' || c == '\x27')) with
        | _ :: _, _ :: _ => some ⟨v⟩
        | _, _ => none
      else none
    | [] => none
  | _ => none

/-- The `(?:name|id)` alternative of `_ANCHOR_RE` (case-insensitive, `name`
tried first) followed by `anchorValue`. -/
def anchorKey (cs : List Char) : Option String :=
  if startsSeqCI "name".data cs then anchorValue (cs.drop 4)
  else if startsSeqCI "id".data cs then anchorValue (cs.drop 2)
  else none

/-- Scanning the gap `\s+(?:[^>]*?\s+)?` of `_ANCHOR_RE`: a candidate
position for the `name`/`id` key is any position whose preceding character
is whitespace, with no `>` anywhere in the gap.  `prevWs` records whether
the previous character was whitespace; candidate positions are tried left
to right. -/
def gapLoop (prevWs : Bool) : List Char → Option String
  | [] => none
  | c :: rest =>
    if prevWs then
      match anchorKey (c :: rest) with
      | some v => some v
      | none => if c == '>' then none else gapLoop c.isWhitespace rest
    else if c == '>' then none
    else gapLoop c.isWhitespace rest

/-- `_ANCHOR_RE.search(line)`: the regex
`<a\s+(?:[^>]*?\s+)?(?:name|id)\s*=\s*["\']([^"\']+)["\']` (IGNORECASE),
returning the captured attribute value of the leftmost match position.
The scan tries every position left to right; at a position it requires
`<`, `a`/`A`, one whitespace character, and then a gap of non-`>`
characters ending in whitespace before the `name`/`id` key. -/
def anchorSearch : List Char → Option String
  | [] => none
  | c :: rest =>
    match c, rest with
    | '<', a :: w :: rest2 =>
      if (a == 'a' || a == 'A') && w.isWhitespace then
        match gapLoop true rest2 with
        | some v => some v
        | none => anchorSearch rest
      else anchorSearch rest
    | _, _ => anchorSearch rest

/-- The anchor match of one line, as `parse_sections` uses it
(`_ANCHOR_RE.search(line)` and then `group(1)`). -/
def anchorOf (line : String) : Option String := anchorSearch line.data

/-- The heading trigger of `parse_sections`: a line triggers a new section
iff the markdown-heading regex matches or the anchor regex finds a match. -/
def headingOf (line : String) : Option String :=
  match headingHashes line.data with
  | some k => some (headingText line.data k)
  | none => none

/-- One line of the `parse_sections` loop state machine.
`cur` is `current_heading`, `acc` is `current_lines`. -/
def parseSectionsGo : List String → Option String → List String → List Section
  | [], none, _ => []
  | [], some h, acc => [⟨h, pyStrip (pyJoin "\n" acc)⟩]
  | line :: rest, cur, acc =>
    match headingOf line, anchorOf line with
    | some h, _ =>
      (match cur with
       | some prev => [Section.mk prev (pyStrip (pyJoin "\n" acc))]
       | none => [])
      ++ parseSectionsGo rest (some h) [line]
    | none, some a =>
      (match cur with
       | some prev => [Section.mk prev (pyStrip (pyJoin "\n" acc))]
       | none => [])
      ++ parseSectionsGo rest (some (pyStrip a)) [line]
    | none, none => parseSectionsGo rest cur (acc ++ [line])

/-- `search.parse_sections`: split a README into sections at markdown
headings (##/###) and HTML anchors. -/
def parse_sections (markdown : String) : List Section :=
  parseSectionsGo (pySplitChar '\n' markdown) none []

/-! ## `search.py`: section search (`search_sections`) -/

/-- The score one section accumulates (loop body of `search_sections`):
heading substring match 2, content substring match 1, per term. -/
def sectionScore (terms : List String) (s : Section) : Nat :=
  let heading_lower := pyLower s.heading
  let content_lower := pyLower s.content
  terms.foldl
    (fun score term =>
      let s1 := if pyIn term heading_lower then score + 2 else score
      if pyIn term content_lower then s1 + 1 else s1)
    0

/-- The scored sections in input order, zero scores dropped. -/
def sectionPairs (terms : List String) (sections : List Section) : List (Section × Nat) :=
  (sections.map (fun s => (s, sectionScore terms s))).filter (fun p => 0 < p.2)

/-- `search.search_sections`: NOTE the tokenization — `query.lower().split()`,
plain whitespace split with no camel-case decomposition (unlike
`score_modules` and `score_examples`, which call `_split_terms`). -/
def search_sections (query : String) (sections : List Section)
    (max_results : Nat := 10) : List Section :=
  let terms := pySplitWs (pyLower query)
  ((sortDesc (sectionPairs terms sections)).take max_results).map (fun p => p.1)

/-! ## `examples.py`: example scoring (`score_examples`) -/

/-- `examples.D3Example` (pydantic model). -/
structure D3Example where
  path : String
  title : String
  category : String
  author : String
deriving DecidableEq

/-- The score one example accumulates over the query terms (the loop body of
`score_examples`).  The two title weights are an `if`/`elif` pair: an exact
title-word match adds 10, otherwise a partial title substring match adds 5 —
never both.  The category weight 3 and path weight 1 add independently. -/
def exampleScore (terms : List String) (e : D3Example) : Nat :=
  let title_lower := pyLower e.title
  let title_words := pySplitWs title_lower
  let category_lower := pyLower e.category
  let path_lower := pyLower e.path
  terms.foldl
    (fun score term =>
      let s1 := if title_words.contains term then score + 10
                else if pyIn term title_lower then score + 5
                else score
      let s2 := if term = category_lower then s1 + 3 else s1
      if pyIn term path_lower then s2 + 1 else s2)
    0

/-- The contribution of a single term to one example's score: the loop body
of `score_examples` started from zero (each branch adds a constant, so the
contribution is independent of the running score). -/
def exampleTermScore (term : String) (e : D3Example) : Nat :=
  let title_lower := pyLower e.title
  let title_words := pySplitWs title_lower
  let category_lower := pyLower e.category
  let path_lower := pyLower e.path
  let s1 := if title_words.contains term then 10
            else if pyIn term title_lower then 5
            else 0
  let s2 := if term = category_lower then s1 + 3 else s1
  if pyIn term path_lower then s2 + 1 else s2

/-- Exact title-word match (`term in title_words`). -/
def exactTitleWord (term : String) (e : D3Example) : Bool :=
  (pySplitWs (pyLower e.title)).contains term

/-- Partial title substring match (`term in title_lower`). -/
def partialTitle (term : String) (e : D3Example) : Bool := pyIn term (pyLower e.title)

/-- The per-term, per-module weight accumulation (loop body of
`score_modules`), factored out for comparison with `exampleTermScore`:
all four module weights are independent `if`s and can stack. -/
def moduleTermScore (term : String) (m : D3Module) : Nat :=
  let name_lower := pyLower m.name
  let short_name := if pyStartsWith "d3-" name_lower then ⟨name_lower.data.drop 3⟩ else name_lower
  let desc_words := pySplitWs (pyLower m.description)
  let tags_lower := m.tags.map pyLower
  let s1 := if term = name_lower ∨ term = short_name then 10 else 0
  let s2 := if tags_lower.contains term then s1 + 3 else s1
  let s3 := if desc_words.contains term then s2 + 2 else s2
  if tags_lower.any (fun tag => pyIn term tag) then s3 + 1 else s3

/-- The scored example records in input order, zero scores dropped. -/
def examplePairs (query : String) (examples : List D3Example) : List (D3Example × Nat) :=
  (examples.map (fun e => (e, exampleScore (_split_terms query) e))).filter (fun p => 0 < p.2)

/-- `examples.score_examples`: (example, score) pairs, positives only, sorted
by score descending, ties in input order. -/
def score_examples (query : String) (examples : List D3Example) : List (D3Example × Nat) :=
  sortDesc (examplePairs query examples)

/-! ## `examples.py`: the brace-aware body scanner (`_extract_function_body`)

The Python scanner walks the source with an index `i` and a `depth`
counter; skipping over string literals (with backslash escapes), line
comments and block comments.  The embedding walks the remaining character
list; each helper returns the pair (characters consumed, rest). -/

/-- The inner string-skipping loop of `_extract_function_body`: after an
opening quote `q`, skip escaped pairs, stop at the first unescaped `q`
(consuming it — the outer `i += 1` steps past the closing quote).  An
unterminated literal consumes the whole input. -/
def skipStr (q : Char) : List Char → List Char × List Char
  | [] => ([], [])
  | c :: rest =>
    if c == '\\' then
      match rest with
      | d :: rest2 =>
        let (a, b) := skipStr q rest2
        (c :: d :: a, b)
      | [] => ([c], [])
    else if c == q then ([c], rest)
    else
      let (a, b) := skipStr q rest
      (c :: a, b)

/-- The line-comment skip of `_extract_function_body`: consume up to and
including the next newline (the outer `i += 1` steps past it). -/
def skipLine : List Char → List Char × List Char
  | [] => ([], [])
  | c :: rest =>
    if c == '\n' then ([c], rest)
    else
      let (a, b) := skipLine rest
      (c :: a, b)

/-- The block-comment skip of `_extract_function_body`: consume up to and
including the next `*/`; a comment with no terminator consumes everything. -/
def skipBlock : List Char → List Char × List Char
  | '*' :: '/' :: rest => (['*', '/'], rest)
  | c :: rest =>
    let (a, b) := skipBlock rest
    (c :: a, b)
  | [] => ([], [])

/-- The main loop of `_extract_function_body`, starting just after the
opening brace with `depth = 1`.  Returns the characters strictly before the
brace at which `depth` returns to zero, or `none` if the input ends first.
`fuel` bounds the number of loop iterations; each iteration consumes at
least one character, so any `fuel ≥ length` is enough. -/
def goBody (fuel : Nat) (l : List Char) (depth : Nat) : Option (List Char) :=
  match fuel, l with
  | _, [] => none
  | 0, _ :: _ => none
  | fuel + 1, c :: rest =>
    if c == '\x7b' then (goBody fuel rest (depth + 1)).map (fun r => c :: r)
    else if c == '\x7d' then
      if depth = 1 then some []
      else (goBody fuel rest (depth - 1)).map (fun r => c :: r)
    else if c == '"' || c == '\x27' || c == '\x60' then
      let p := skipStr c rest
      (goBody fuel p.2 depth).map (fun r => c :: (p.1 ++ r))
    else if c == '/' then
      match rest with
      | d :: rest2 =>
        if d == '/' then
          let p := skipLine rest2
          (goBody fuel p.2 depth).map (fun r => c :: d :: (p.1 ++ r))
        else if d == '*' then
          let p := skipBlock rest2
          (goBody fuel p.2 depth).map (fun r => c :: d :: (p.1 ++ r))
        else (goBody fuel rest depth).map (fun r => c :: r)
      | [] => none
    else (goBody fuel rest depth).map (fun r => c :: r)

/-- `examples._extract_function_body`, taking the source suffix that starts
just after the opening brace: the scanned body, stripped, or `""` when the
braces never rebalance. -/
def _extract_function_body (l : List Char) : String :=
  match goBody (l.length + 1) l 1 with
  | some b => ⟨trimChars b⟩
  | none => ""

/-! ## `examples.py`: locating function cells (`_extract_cell`) -/

/-- Python's `\w` (ASCII range): letters, digits, underscore. -/
def isWord (c : Char) : Bool := c.isAlphanum || c == '_'

/-- Match a literal: `some rest` iff `cs` starts with `lit`. -/
def stripLit : List Char → List Char → Option (List Char)
  | [], cs => some cs
  | _ :: _, [] => none
  | a :: as, b :: bs => if a == b then stripLit as bs else none

/-- The regex piece `\s+`: at least one whitespace character, consumed
greedily (deterministic whenever the next pattern piece cannot match
whitespace). -/
def wsPlus (cs : List Char) : Option (List Char) :=
  match cs with
  | c :: rest => if c.isWhitespace then some (rest.dropWhile Char.isWhitespace) else none
  | [] => none

/-- One attempt of `_FUNC_CELL_RE` / `_ASYNC_FUNC_CELL_RE` at a line start:
`^(async\s+)?function\s+(_?\w+)\(([^)]*)\)\s*\{` (the name group `_?\w+` is
exactly a maximal nonempty `\w` run, since `_` is itself a `\w` character).
Returns (name, params, rest after the opening brace). -/
def tryFuncAt (isAsync : Bool) (cs : List Char) : Option (String × String × List Char) := do
  let cs0 ← if isAsync then (stripLit "async".data cs).bind wsPlus else some cs
  let cs1 ← stripLit "function".data cs0
  let cs2 ← wsPlus cs1
  let nm := cs2.takeWhile isWord
  if nm.isEmpty then none
  else do
    let cs3 ← stripLit "(".data (cs2.dropWhile isWord)
    let ps := cs3.takeWhile (fun c => !(c == ')'))
    let cs4 ← stripLit ")".data (cs3.dropWhile (fun c => !(c == ')')))
    let cs5 ← stripLit "\x7b".data (cs4.dropWhile Char.isWhitespace)
    some (⟨nm⟩, ⟨ps⟩, cs5)

/-- `pattern.finditer(source)` with the `re.MULTILINE` anchor `^`: try the
cell pattern at the source start and after every newline, in position order,
returning the params and post-brace rest of the first match whose name group
equals `name`.  A match with another name is skipped past its end
(finditer's matches do not overlap). -/
def scanCells (fuel : Nat) (isAsync : Bool) (name : String) (atStart : Bool) :
    List Char → Option (String × List Char)
  | [] => none
  | c :: rest =>
    match fuel with
    | 0 => none
    | fuel + 1 =>
      if atStart then
        match tryFuncAt isAsync (c :: rest) with
        | some (n, ps, restAfter) =>
          if n = name then some (ps, restAfter)
          else scanCells fuel isAsync name false restAfter
        | none => scanCells fuel isAsync name (c == '\n') rest
      else scanCells fuel isAsync name (c == '\n') rest

/-- `examples._extract_cell`: search the async pattern first, then the sync
one; on a hit, extract the body from the position after the opening brace
and re-add the `async ` prefix for an async match. -/
def _extract_cell (source : String) (name : String) : Option (String × String × String) :=
  let cs := source.data
  match scanCells (cs.length + 1) true name true cs with
  | some (ps, rest) => some (name, pyStrip ps, "async " ++ _extract_function_body rest)
  | none =>
    match scanCells (cs.length + 1) false name true cs with
    | some (ps, rest) => some (name, pyStrip ps, _extract_function_body rest)
    | none => none

/-! ## `examples.py`: description extraction (`_extract_description`) -/

/-- Leftmost-match rewriting, the semantics of `re.sub` for patterns that
always consume at least one character: at each position try `step`; on a
match emit the replacement and continue after the consumed text, otherwise
keep the character and move on. -/
def rewriteAll (step : List Char → Option (List Char × List Char)) :
    Nat → List Char → List Char
  | _, [] => []
  | 0, l => l
  | fuel + 1, c :: rest =>
    match step (c :: rest) with
    | some (repl, rest2) => repl ++ rewriteAll step fuel rest2
    | none => c :: rewriteAll step fuel rest

/-- `re.sub(r"<[^>]+>", "", text)`: an HTML tag is `<`, at least one
non-`>` character, `>`. -/
def tagStep : List Char → Option (List Char × List Char)
  | '<' :: rest =>
    match rest.takeWhile (fun c => !(c == '>')), rest.dropWhile (fun c => !(c == '>')) with
    | _ :: _, _ :: rest2 => some ([], rest2)
    | _, _ => none
  | _ => none

/-- `re.sub(r"\[([^\]]+)\]\([^)]+\)", r"\1", text)`: a markdown link
`[text](target)` replaced by its text. -/
def linkStep : List Char → Option (List Char × List Char)
  | '[' :: rest =>
    match rest.takeWhile (fun c => !(c == ']')), rest.dropWhile (fun c => !(c == ']')) with
    | t :: ts, ']' :: '(' :: rest2 =>
      match rest2.takeWhile (fun c => !(c == ')')), rest2.dropWhile (fun c => !(c == ')')) with
      | _ :: _, ')' :: rest3 => some (t :: ts, rest3)
      | _, _ => none
    | _, _ => none
  | _ => none

/-- An emphasis-marker character (`[*_]`). -/
def isEmph (c : Char) : Bool := c == '*' || c == '_'

/-- `re.sub(r"[*_]+([^*_]+)[*_]+", r"\1", text)`: a maximal emphasis run,
a nonempty run of non-emphasis characters, a nonempty emphasis run. -/
def emphStep : List Char → Option (List Char × List Char)
  | c :: rest =>
    if isEmph c then
      let rest1 := (c :: rest).dropWhile isEmph
      match rest1.takeWhile (fun x => !(isEmph x)), rest1.dropWhile (fun x => !(isEmph x)) with
      | m :: ms, d :: rest2 => some (m :: ms, (d :: rest2).dropWhile isEmph)
      | _, _ => none
    else none
  | [] => none

/-- `re.sub(r"\s+", " ", text)`: a whitespace run becomes one space. -/
def wsStep : List Char → Option (List Char × List Char)
  | c :: rest =>
    if c.isWhitespace then some ([' '], rest.dropWhile Char.isWhitespace) else none
  | [] => none

/-- The breadcrumb tail `D3\s*›\s*Gallery\s*` tried at one position. -/
def breadTryAt (cs : List Char) : Option (List Char) := do
  let cs1 ← stripLit "D3".data cs
  let cs2 ← stripLit "›".data (cs1.dropWhile Char.isWhitespace)
  let cs3 ← stripLit "Gallery".data (cs2.dropWhile Char.isWhitespace)
  some (cs3.dropWhile Char.isWhitespace)

/-- `re.sub(r"^.*?D3\s*›\s*Gallery\s*", "", text)`: anchored at the start,
the lazy `.*?` cannot cross a newline; the whole prefix up to and including
the breadcrumb (and its trailing whitespace) is removed, if present. -/
def breadScan : Nat → List Char → Option (List Char)
  | _, [] => none
  | 0, _ => none
  | fuel + 1, c :: rest =>
    match breadTryAt (c :: rest) with
    | some r => some r
    | none => if c == '\n' then none else breadScan fuel rest

/-- Apply the breadcrumb removal (identity when the pattern is absent). -/
def stripBread (cs : List Char) : List Char :=
  match breadScan (cs.length + 1) cs with
  | some r => r
  | none => cs

/-- The piece `[^#]*?\s+` at the end of the leading-heading pattern: scan to
the first whitespace character with no `#` before it, consuming the whole
whitespace run. -/
def headTail : List Char → Option (List Char)
  | [] => none
  | c :: rest =>
    if c.isWhitespace then some (rest.dropWhile Char.isWhitespace)
    else if c == '#' then none
    else headTail rest

/-- `re.sub(r"^#\s+\S[^#]*?\s+", "", text, count=1)`: drop a leading
`# Word ` heading token. -/
def stripLeadHeading (cs : List Char) : List Char :=
  match cs with
  | '#' :: rest =>
    match wsPlus rest with
    | some cs1 =>
      match cs1 with
      | _ :: cs2 =>
        match headTail cs2 with
        | some r => r
        | none => cs
      | [] => cs
    | none => cs
  | _ => cs

/-- The cleanup chain of `_extract_description` applied to a captured
markdown body, in source order: strip tags, strip links, strip emphasis,
collapse whitespace, drop the breadcrumb, drop a leading heading, strip. -/
def descClean (md : List Char) : String :=
  let t1 := rewriteAll tagStep md.length md
  let t2 := rewriteAll linkStep t1.length t1
  let t3 := rewriteAll emphStep t2.length t2
  let t4 := rewriteAll wsStep t3.length t3
  ⟨trimChars (stripLeadHeading (stripBread t4))⟩

/-- The whitespace-then-newline piece `\s*\n` with full backtracking: every
rest obtainable by consuming a whitespace prefix that ends with a newline,
longest consumed first (the greedy engine's preference order). -/
def wsNlRests : List Char → List (List Char)
  | [] => []
  | c :: rest =>
    if c.isWhitespace then
      wsNlRests rest ++ (if c == '\n' then [rest] else [])
    else []

/-- First success of `f` over a list of candidates. -/
def firstSome {α β : Type} (f : α → Option β) : List α → Option β
  | [] => none
  | x :: xs =>
    match f x with
    | some y => some y
    | none => firstSome f xs

/-- The closing piece of a markdown cell after a candidate backtick:
`` \s*\n\)\} `` for the line-broken pattern, `` \s*\)\} `` for the inline
one. -/
def mdClose (lineBroken : Bool) (cs : List Char) : Option (List Char) :=
  if lineBroken then firstSome (fun r => stripLit ")\x7d".data r) (wsNlRests cs)
  else stripLit ")\x7d".data (cs.dropWhile Char.isWhitespace)

/-- The lazy capture `(.*?)` (DOTALL) of the markdown-cell patterns: the
content runs to the first backtick whose closing piece matches. -/
def mdCapture (lineBroken : Bool) : Nat → List Char → Option (List Char × List Char)
  | _, [] => none
  | 0, _ => none
  | fuel + 1, c :: rest =>
    if c == '\x60' then
      match mdClose lineBroken rest with
      | some r => some ([], r)
      | none => (mdCapture lineBroken fuel rest).map (fun p => (c :: p.1, p.2))
    else (mdCapture lineBroken fuel rest).map (fun p => (c :: p.1, p.2))

/-- One attempt of `_MD_CELL_RE` (`lineBroken = true`) or
`_MD_CELL_ARROW_RE` (`lineBroken = false`) at a position:
`` function\s+_\d+\(md\)\s*\{return\(\s*\nmd`(.*?)`\s*\n\)\} `` and
`` function\s+_\d+\(md\)\s*\{return\(\s*md`(.*?)`\s*\)\} ``. -/
def tryMdAt (lineBroken : Bool) (cs : List Char) : Option (List Char) := do
  let cs1 ← stripLit "function".data cs
  let cs2 ← wsPlus cs1
  let cs3 ← stripLit "_".data cs2
  let ds := cs3.takeWhile Char.isDigit
  if ds.isEmpty then none
  else do
    let cs4 ← stripLit "(md)".data (cs3.dropWhile Char.isDigit)
    let cs5 ← stripLit "\x7breturn(".data (cs4.dropWhile Char.isWhitespace)
    let cs6 ←
      if lineBroken then firstSome (fun r => stripLit "md\x60".data r) (wsNlRests cs5)
      else stripLit "md\x60".data (cs5.dropWhile Char.isWhitespace)
    let p ← mdCapture lineBroken (cs6.length + 1) cs6
    some p.1

/-- `pattern.search(source)` for a markdown-cell pattern: leftmost match. -/
def mdSearch (lineBroken : Bool) : Nat → List Char → Option (List Char)
  | _, [] => none
  | 0, _ => none
  | fuel + 1, c :: rest =>
    match tryMdAt lineBroken (c :: rest) with
    | some cap => some cap
    | none => mdSearch lineBroken fuel rest

/-- `examples._extract_description`: the first markdown cell's content,
cleaned; `""` when no markdown cell matches. -/
def _extract_description (source : String) : String :=
  let cs := source.data
  match mdSearch true (cs.length + 1) cs with
  | some md => descClean md
  | none =>
    match mdSearch false (cs.length + 1) cs with
    | some md => descClean md
    | none => ""

/-! ## `examples.py`: file attachments, chart dependencies, imports -/

/-- Insertion with Python `dict` semantics: an existing key keeps its
position and gets the new value, a new key is appended. -/
def dictInsert (d : List (String × String)) (k v : String) : List (String × String) :=
  if d.any (fun e => e.1 == k) then d.map (fun e => if e.1 == k then (k, v) else e)
  else d ++ [(k, v)]

/-- Python `dict` lookup over the association list. -/
def dictGet (d : List (String × String)) (k : String) : Option String :=
  match d.find? (fun e => e.1 == k) with
  | some e => some e.2
  | none => none

/-- One attempt of `_FILE_ATTACHMENT_RE` at a position:
`\["([^"]+)",\s*\{url:\s*"([^"]+)"(?:,\s*mimeType:\s*"([^"]+)")?\}]`,
with the greedy optional `mimeType` group tried first.
Returns ((name, url), rest after the match). -/
def tryAttachAt (cs : List Char) : Option ((String × String) × List Char) := do
  let cs1 ← stripLit "[\"".data cs
  let nm := cs1.takeWhile (fun c => !(c == '"'))
  if nm.isEmpty then none
  else do
    let cs2 ← stripLit "\",".data (cs1.dropWhile (fun c => !(c == '"')))
    let cs3 ← stripLit "\x7burl:".data (cs2.dropWhile Char.isWhitespace)
    let cs4 ← stripLit "\"".data (cs3.dropWhile Char.isWhitespace)
    let url := cs4.takeWhile (fun c => !(c == '"'))
    if url.isEmpty then none
    else do
      let cs5 ← stripLit "\"".data (cs4.dropWhile (fun c => !(c == '"')))
      let withMime : Option (List Char) := do
        let m1 ← stripLit ",".data cs5
        let m2 ← stripLit "mimeType:".data (m1.dropWhile Char.isWhitespace)
        let m3 ← stripLit "\"".data (m2.dropWhile Char.isWhitespace)
        let mime := m3.takeWhile (fun c => !(c == '"'))
        if mime.isEmpty then none
        else do
          let m4 ← stripLit "\"".data (m3.dropWhile (fun c => !(c == '"')))
          stripLit "\x7d]".data m4
      match withMime with
      | some r => some ((⟨nm⟩, ⟨url⟩), r)
      | none => do
        let r ← stripLit "\x7d]".data cs5
        some ((⟨nm⟩, ⟨url⟩), r)

/-- `_FILE_ATTACHMENT_RE.finditer` folded into the attachment dict
(later duplicates overwrite earlier names). -/
def attachScan : Nat → List Char → List (String × String) → List (String × String)
  | _, [], acc => acc
  | 0, _, acc => acc
  | fuel + 1, c :: rest, acc =>
    match tryAttachAt (c :: rest) with
    | some (kv, r) => attachScan fuel r (dictInsert acc kv.1 kv.2)
    | none => attachScan fuel rest acc

/-- `examples._extract_file_attachments`. -/
def _extract_file_attachments (source : String) : List (String × String) :=
  attachScan (source.data.length + 1) source.data []

/-- One attempt of the chart-dependency regex
`\.define\("chart",\s*\[([^\]]*)\],\s*_chart\)` at a position, returning the
raw dependency-list text. -/
def tryChartDepsAt (cs : List Char) : Option (List Char) := do
  let cs1 ← stripLit ".define(\"chart\",".data cs
  let cs2 ← stripLit "[".data (cs1.dropWhile Char.isWhitespace)
  let deps := cs2.takeWhile (fun c => !(c == ']'))
  let cs3 ← stripLit "],".data (cs2.dropWhile (fun c => !(c == ']')))
  let _ ← stripLit "_chart)".data (cs3.dropWhile Char.isWhitespace)
  some deps

/-- `re.search` for the chart-dependency regex: leftmost match. -/
def chartDepsSearch : Nat → List Char → Option (List Char)
  | _, [] => none
  | 0, _ => none
  | fuel + 1, c :: rest =>
    match tryChartDepsAt (c :: rest) with
    | some deps => some deps
    | none => chartDepsSearch fuel rest

/-- Python `s.strip('"')`: strip leading and trailing double quotes. -/
def stripQuoteEnds (l : List Char) : List Char :=
  dropTrailing (fun c => c == '"') (l.dropWhile (fun c => c == '"'))

/-- `examples._find_chart_dependencies`:
`[d.strip().strip('"') for d in deps_str.split(",") if d.strip()]`. -/
def _find_chart_dependencies (source : String) : List String :=
  match chartDepsSearch (source.data.length + 1) source.data with
  | some deps =>
    ((pySplitChar ',' ⟨deps⟩).filter (fun d => pyStrip d ≠ ""))
      |>.map (fun d => ⟨stripQuoteEnds (pyStrip d).data⟩)
  | none => []

/-- The lazy `.*?` (no DOTALL) before a literal: scan forward for the
literal without crossing a newline. -/
def lazyFind (lit : List Char) : Nat → List Char → Option (List Char)
  | _, [] => none
  | 0, _ => none
  | fuel + 1, c :: rest =>
    match stripLit lit (c :: rest) with
    | some r => some r
    | none => if c == '\n' then none else lazyFind lit fuel rest

/-- `examples.OBSERVABLE_BASE_URL`. -/
def OBSERVABLE_BASE_URL : String := "https://observablehq.com"

/-- Python `s.endswith(suf)`. -/
def pyEndsWith (suf s : String) : Bool := startsSeq suf.data.reverse s.data.reverse

/-- The module-path cleanup of `_extract_imports`:
`re.sub(r"\.js$", "", path)` and then, when the result does not start with
`/@`, `"/@" + clean.lstrip("/")`. -/
def cleanModulePath (path : String) : String :=
  let clean := if pyEndsWith ".js" path then (⟨path.data.take (path.data.length - 3)⟩ : String) else path
  if pyStartsWith "/@" clean then clean
  else "/@" ++ ⟨clean.data.dropWhile (fun c => c == '/')⟩

/-- One attempt of `_MODULE_IMPORT_RE` at a position:
`\.define\("(module \d+)".*?import\("(/[^"?]+)` (no DOTALL).
Returns ((module variable, raw path), rest after the match). -/
def tryModImportAt (cs : List Char) : Option ((String × String) × List Char) := do
  let cs1 ← stripLit ".define(\"module ".data cs
  let ds := cs1.takeWhile Char.isDigit
  if ds.isEmpty then none
  else do
    let cs2 ← stripLit "\"".data (cs1.dropWhile Char.isDigit)
    let cs3 ← lazyFind "import(\"".data (cs2.length + 1) cs2
    let cs4 ← stripLit "/".data cs3
    let path := cs4.takeWhile (fun c => !(c == '"' || c == '?'))
    if path.isEmpty then none
    else some ((("module " ++ ⟨ds⟩ : String), ("/" ++ (⟨path⟩ : String) : String)),
               cs4.dropWhile (fun c => !(c == '"' || c == '?')))

/-- `_MODULE_IMPORT_RE.finditer` folded into the module-variable → cleaned
notebook-path dict. -/
def modImportScan : Nat → List Char → List (String × String) → List (String × String)
  | _, [], acc => acc
  | 0, _, acc => acc
  | fuel + 1, c :: rest, acc =>
    match tryModImportAt (c :: rest) with
    | some (kv, r) => modImportScan fuel r (dictInsert acc kv.1 (cleanModulePath kv.2))
    | none => modImportScan fuel rest acc

/-- One attempt of `_HELPER_IMPORT_RE` at a position:
`\.define\("(\w+)",\s*\["(module \d+)".*?\.import\("(\w+)"` (no DOTALL).
Returns ((defined name, module variable), rest after the match). -/
def tryHelperImportAt (cs : List Char) : Option ((String × String) × List Char) := do
  let cs1 ← stripLit ".define(\"".data cs
  let nm := cs1.takeWhile isWord
  if nm.isEmpty then none
  else do
    let cs2 ← stripLit "\",".data (cs1.dropWhile isWord)
    let cs3 ← stripLit "[\"module ".data (cs2.dropWhile Char.isWhitespace)
    let ds := cs3.takeWhile Char.isDigit
    if ds.isEmpty then none
    else do
      let cs4 ← stripLit "\"".data (cs3.dropWhile Char.isDigit)
      let cs5 ← lazyFind ".import(\"".data (cs4.length + 1) cs4
      let imp := cs5.takeWhile isWord
      if imp.isEmpty then none
      else do
        let r ← stripLit "\"".data (cs5.dropWhile isWord)
        some (((⟨nm⟩ : String), ("module " ++ ⟨ds⟩ : String)), r)

/-- `_HELPER_IMPORT_RE.finditer` collected in order. -/
def helperImportScan : Nat → List Char → List (String × String)
  | _, [] => []
  | 0, _ => []
  | fuel + 1, c :: rest =>
    match tryHelperImportAt (c :: rest) with
    | some (kv, r) => kv :: helperImportScan fuel r
    | none => helperImportScan fuel rest

/-- `examples._extract_imports`: build the module-variable → path map, then
join the helper definitions through it; unresolved module variables are
silently dropped. -/
def _extract_imports (source : String) : List (String × String) :=
  let cs := source.data
  let module_paths := modImportScan (cs.length + 1) cs []
  let helpers := helperImportScan (cs.length + 1) cs
  helpers.foldl
    (fun imports p =>
      match dictGet module_paths p.2 with
      | some notebook_path => dictInsert imports p.1 (OBSERVABLE_BASE_URL ++ notebook_path)
      | none => imports)
    []

/-! ## `examples.py`: notebook assembly (`extract_notebook_code`) -/

/-- The reserved environment names skipped when turning declared chart
dependencies into helper data cells (`examples.py`, the helper loop). -/
def RESERVED_ENV : List String := ["d3", "invalidation", "width", "height", "topojson", "DOM"]

/-- The data-cell body cleanup: strip, and when the body starts with
`return(`, remove the wrapper (`re.sub(r"^return\(\s*\n?", "", ...)` —
the greedy `\s*` also eats the optional newline — and
`re.sub(r"\s*\)$", "", ...)`). -/
def cleanDataBody (body : String) : String :=
  let clean := pyStrip body
  if pyStartsWith "return(" clean then
    let c1 : List Char := (clean.data.drop 7).dropWhile Char.isWhitespace
    match c1.getLast? with
    | some x => if x == ')' then ⟨dropTrailing Char.isWhitespace c1.dropLast⟩ else (⟨c1⟩ : String)
    | none => (⟨c1⟩ : String)
  else clean

/-- The two-line annotation the helper loop emits for one declared chart
dependency (empty when the dependency is reserved, has no matching `_dep`
cell, or the cell is not a data-loading cell). -/
def helperCodeFor (source : String) (attachments : List (String × String)) (dep : String) :
    List String :=
  if RESERVED_ENV.contains dep then []
  else
    match _extract_cell source ("_" ++ dep) with
    | some (_, params, body) =>
      if pyIn "FileAttachment" params && !attachments.isEmpty then
        ["// Data: " ++ dep, "// " ++ cleanDataBody body]
      else []
    | none => []

/-- The full helper-annotation block of the assembly: the helper loop run
over every declared chart dependency, in order. -/
def helperLines (source : String) : List String :=
  (_find_chart_dependencies source).foldr
    (fun dep acc => helperCodeFor source (_extract_file_attachments source) dep ++ acc) []

/-- `param_list` of the assembly step:
`[p.strip() for p in params.split(",") if p.strip()]`. -/
def paramList (params : String) : List String :=
  ((pySplitChar ',' params).map pyStrip).filter (fun p => p ≠ "")

/-- `d3_deps` of the assembly step: the parameters not among
`("d3", "invalidation", "width")` — note this three-name tuple, not the
six-name `RESERVED_ENV` list used by the helper loop. -/
def chartDepParams (params : String) : List String :=
  (paramList params).filter (fun p => !(["d3", "invalidation", "width"] : List String).contains p)

/-- The dependency-comment line. -/
def depLine (d3_deps : List String) : String := "// Dependencies: " ++ pyJoin ", " d3_deps

/-- The `code_lines` / `code` assembly of `extract_notebook_code`: the
dependency comment (when any non-environment parameter exists), the helper
annotations (followed by a blank line, when any), and the chart body,
joined with newlines. -/
def assembleCode (helper_code : List String) (params body : String) : String :=
  let d3_deps := chartDepParams params
  let code_lines :=
    (if d3_deps.isEmpty then [] else [depLine d3_deps])
    ++ (if helper_code.isEmpty then [] else helper_code ++ [""])
    ++ [body]
  pyJoin "\n" code_lines

/-- `examples.extract_notebook_code`: parse an Observable notebook source
and assemble the markdown document (description; fenced code block with
dependency comment, data-cell annotations and the chart body; imported
helpers; data files).  Returns the fixed sentinel when no `_chart` cell is
found. -/
def extract_notebook_code (source : String) : String :=
  let description := _extract_description source
  let attachments := _extract_file_attachments source
  let helper_code := helperLines source
  match _extract_cell source "_chart" with
  | none => "No chart code found in this notebook."
  | some (_, params, body) =>
    let code := assembleCode helper_code params body
    let imports := _extract_imports source
    let parts :=
      (if description = "" then [] else [description])
      ++ ["```js\n" ++ code ++ "\n```"]
      ++ (if imports.isEmpty then []
          else "**Imported helpers:**" ::
            imports.map (fun p => "- \x60" ++ p.1 ++ "\x60 from [" ++ p.2 ++ "](" ++ p.2 ++ ")"))
      ++ (if attachments.isEmpty then []
          else "**Data files:**" :: attachments.map (fun p => "- \x60" ++ p.1 ++ "\x60: " ++ p.2))
    pyJoin "\n\n" parts

/-! ## `cache.py` and the fetch model -/

/-- `cache.CACHE_DIR` is `Path.home() / ".cache" / "d3-mcp-server"`; the
home directory is environment state, held abstract as a fixed root. -/
def CACHE_DIR : String := "~/.cache/d3-mcp-server"

/-- `cache._cache_path`: strip leading `/` from the page key
(`page.lstrip("/")`) and map it to `CACHE_DIR / f"{clean}.md"`. -/
def _cache_path (page : String) : String :=
  CACHE_DIR ++ "/" ++ (⟨page.data.dropWhile (fun c => c == '/')⟩ : String) ++ ".md"

/-- `examples._example_cache_path`: strip leading `@` and `/` characters
(`path.lstrip("@/")`) and map into the `examples` subdirectory. -/
def _example_cache_path (path : String) : String :=
  CACHE_DIR ++ "/examples/" ++ (⟨path.data.dropWhile (fun c => c == '@' || c == '/')⟩ : String) ++ ".md"

/-- The one HTTP GET a fetch performs, as data: a timeout, another
transport error, or a received response with its status and body text. -/
inductive FetchOutcome where
  | timeout
  | transportError (msg : String)
  | response (status : Nat) (body : String)
deriving DecidableEq

/-- Does the outcome make the fetch raise?  Timeouts and transport errors
always do; a response raises iff its status is not a 2xx success
(404 via the explicit check, anything else non-2xx via
`response.raise_for_status()`). -/
def FetchOutcome.fails : FetchOutcome → Bool
  | .timeout => true
  | .transportError _ => true
  | .response status _ => !(decide (200 ≤ status ∧ status < 300))

/-- The file cache as state: file location → contents. -/
def Cache : Type := String → Option String

/-- `path.write_text(content)` (with `mkdir(parents=True)`): the cache with
one location replaced. -/
def cacheWrite (σ : Cache) (p c : String) : Cache :=
  fun q => if q = p then some c else σ q

/-- `cache.fetch_page`, with its effects explicit.  `reduce` stands for
`_html_to_markdown` (an HTML-to-markdown reduction through external parser
libraries, kept as a parameter); `fresh` is the `_is_fresh` check (a
wall-clock mtime comparison); `r` is the outcome of the single `GET`;
`σ` is the file cache.  Returns the result (content or raised `ToolError`
message) and the cache after the call. -/
def fetch_page (reduce : String → String) (page : String) (fresh : Bool)
    (r : FetchOutcome) (σ : Cache) : Except String String × Cache :=
  let path := _cache_path page
  if fresh then (Except.ok ((σ path).getD ""), σ)
  else
    match r with
    | .timeout => (Except.error ("Timeout fetching " ++ BASE_URL ++ page), σ)
    | .transportError m =>
      (Except.error ("Network error fetching " ++ BASE_URL ++ page ++ ": " ++ m), σ)
    | .response status body =>
      if status = 404 then (Except.error ("Page not found: " ++ BASE_URL ++ page), σ)
      else if 200 ≤ status ∧ status < 300 then
        let content := reduce body
        (Except.ok content, cacheWrite σ path content)
      else (Except.error "HTTP status error", σ)

/-- `examples.NOTEBOOK_API_URL`. -/
def NOTEBOOK_API_URL : String := "https://api.observablehq.com"

/-- `examples.fetch_notebook`, with its effects explicit (`fresh` covers the
`cache_path.exists()` and TTL check together; extraction is the embedded
`extract_notebook_code`). -/
def fetch_notebook (path : String) (fresh : Bool) (r : FetchOutcome) (σ : Cache) :
    Except String String × Cache :=
  let cache_path := _example_cache_path path
  if fresh then (Except.ok ((σ cache_path).getD ""), σ)
  else
    match r with
    | .timeout => (Except.error ("Timeout fetching notebook: " ++ path), σ)
    | .transportError m => (Except.error ("Network error fetching notebook: " ++ m), σ)
    | .response status body =>
      if status = 404 then (Except.error ("Notebook not found: " ++ path), σ)
      else if 200 ≤ status ∧ status < 300 then
        let content := extract_notebook_code body
        (Except.ok content, cacheWrite σ cache_path content)
      else (Except.error "HTTP status error", σ)

/-! ## Spec-side comparator definitions

These definitions follow the specification's words, for comparison with the
definitions above that are translated from the source. -/

/-- Follows the spec's words: decompose a token into sub-words exactly at
lowercase-to-uppercase transitions. -/
def lcUcSplit : List Char → List (List Char)
  | [] => []
  | [c] => [[c]]
  | c1 :: c2 :: rest =>
    if c1.isLower && c2.isUpper then [c1] :: lcUcSplit (c2 :: rest)
    else
      match lcUcSplit (c2 :: rest) with
      | g :: gs => (c1 :: g) :: gs
      | [] => [[c1]]

/-- Follows the spec's words: `_split_terms` with decomposition only at
lowercase-to-uppercase transitions (the claimed semantics, to be compared
with the regex-based `_split_terms` above). -/
def splitTermsLcUc (query : String) : List String :=
  (pySplitWs query).foldr
    (fun token acc =>
      let parts : List String := (lcUcSplit token.data).map (fun p => ⟨p.map Char.toLower⟩)
      (if parts.length > 1 then parts ++ [pyLower token] else [pyLower token]) ++ acc)
    []

/-- Does the list start with an uppercase letter? -/
def headIsUpper : List Char → Bool
  | y :: _ => y.isUpper
  | [] => false

/-- An independent characterization of the regex decomposition for
alphabetic tokens: working from the right, every uppercase letter starts a
new sub-word. -/
def upperSplit : List Char → List (List Char)
  | [] => []
  | c :: rest =>
    match upperSplit rest with
    | [] => [[c]]
    | g :: gs => if headIsUpper g then [c] :: g :: gs else (c :: g) :: gs

/-- Follows the spec's words: section search tokenized with `_split_terms`
(one tokenization for all three record kinds), to be compared with the
source's `search_sections`. -/
def searchSectionsSpec (query : String) (sections : List Section)
    (max_results : Nat := 10) : List Section :=
  let terms := _split_terms query
  ((sortDesc (sectionPairs terms sections)).take max_results).map (fun p => p.1)

/-! ## A token model of scanner input (for the brace-scanner theorem)

A source text seen by `_extract_function_body` is modelled as a list of
lexical tokens: braces, string literals, line and block comments, and other
single characters.  `render` maps the tokens back to the character stream
the scanner actually reads; well-formedness states that each token's
content cannot end the token early. -/

/-- Can the string-skipping loop traverse `content` without stopping?
True when every unescaped character differs from the quote `q` and the
content does not end in a dangling backslash (which would escape the
closing quote). -/
def strOk (q : Char) : List Char → Bool
  | [] => true
  | c :: rest =>
    if c == '\\' then
      match rest with
      | _ :: rest2 => strOk q rest2
      | [] => false
    else !(c == q) && strOk q rest

/-- Is the head of the list the character `x`? -/
def headIs (x : Char) : List Char → Bool
  | y :: _ => y == x
  | [] => false

/-- Does `content` avoid the block-comment terminator `*/`? -/
def blockOk : List Char → Bool
  | [] => true
  | c :: rest => if c == '*' && headIs '/' rest then false else blockOk rest

/-- The characters the scanner dispatches on. -/
def specialChar (c : Char) : Bool :=
  c == '\x7b' || c == '\x7d' || c == '"' || c == '\x27' || c == '\x60' || c == '/'

/-- A lexical token of the scanned body. -/
inductive JTok where
  | lbrace
  | rbrace
  | strLit (q : Char) (content : List Char)
  | lineComment (content : List Char)
  | blockComment (content : List Char)
  | other (c : Char)
deriving DecidableEq

/-- The character stream of one token. -/
def JTok.render : JTok → List Char
  | .lbrace => ['\x7b']
  | .rbrace => ['\x7d']
  | .strLit q c => q :: c ++ [q]
  | .lineComment c => '/' :: '/' :: c ++ ['\n']
  | .blockComment c => '/' :: '*' :: c ++ ['*', '/']
  | .other c => [c]

/-- Well-formedness: a string literal uses one of the three quote
characters and its content cannot close it early; a line comment's content
has no newline; a block comment's content has no `*/`; an `other` character
is none of the scanner's dispatch characters. -/
def JTok.wf : JTok → Bool
  | .lbrace => true
  | .rbrace => true
  | .strLit q c => (q == '"' || q == '\x27' || q == '\x60') && strOk q c
  | .lineComment c => c.all (fun x => x != '\n')
  | .blockComment c => blockOk c
  | .other c => !(specialChar c)

/-- The character stream of a token list. -/
def renderToks : List JTok → List Char
  | [] => []
  | t :: ts => t.render ++ renderToks ts

/-- The depth bookkeeping of a token list: starting from `d`, the depth
after the list, or `none` if a closing brace would return the depth to zero
somewhere inside the list (i.e. terminate the scan early). -/
def braceRun : List JTok → Nat → Option Nat
  | [], d => some d
  | t :: ts, d =>
    match t with
    | .lbrace => braceRun ts (d + 1)
    | .rbrace => if d ≤ 1 then none else braceRun ts (d - 1)
    | _ => braceRun ts d

/-! ## Lemmas: the stable descending sort -/

theorem mem_insertDesc {α : Type} (x a : α × Nat) (l : List (α × Nat)) :
    a ∈ insertDesc x l ↔ a = x ∨ a ∈ l := by
  induction l with
  | nil => simp [insertDesc]
  | cons y ys ih =>
    by_cases h : x.2 ≤ y.2
    · simp only [insertDesc, if_pos h, List.mem_cons, ih]
      tauto
    · simp only [insertDesc, if_neg h, List.mem_cons]

theorem insertDesc_sorted {α : Type} (x : α × Nat) (l : List (α × Nat))
    (h : List.Pairwise (fun a b => b.2 ≤ a.2) l) :
    List.Pairwise (fun a b => b.2 ≤ a.2) (insertDesc x l) := by
  induction l with
  | nil => simp [insertDesc]
  | cons y ys ih =>
    rcases List.pairwise_cons.mp h with ⟨hy, hys⟩
    by_cases hle : x.2 ≤ y.2
    · rw [insertDesc, if_pos hle]
      refine List.pairwise_cons.mpr ⟨?_, ih hys⟩
      intro b hb
      rcases (mem_insertDesc x b ys).mp hb with rfl | hb
      · exact hle
      · exact hy b hb
    · rw [insertDesc, if_neg hle]
      refine List.pairwise_cons.mpr ⟨?_, h⟩
      intro b hb
      rcases List.mem_cons.mp hb with rfl | hb
      · omega
      · exact le_trans (hy b hb) (by omega)

theorem sortDesc_sorted_aux {α : Type} (l acc : List (α × Nat))
    (h : List.Pairwise (fun a b => b.2 ≤ a.2) acc) :
    List.Pairwise (fun a b => b.2 ≤ a.2) (l.foldl (fun acc x => insertDesc x acc) acc) := by
  induction l generalizing acc with
  | nil => exact h
  | cons x xs ih => exact ih (insertDesc x acc) (insertDesc_sorted x acc h)

theorem sortDesc_sorted {α : Type} (l : List (α × Nat)) :
    List.Pairwise (fun a b => b.2 ≤ a.2) (sortDesc l) :=
  sortDesc_sorted_aux l [] (by simp)

theorem mem_sortDesc_aux {α : Type} (l acc : List (α × Nat)) (a : α × Nat) :
    a ∈ l.foldl (fun acc x => insertDesc x acc) acc ↔ a ∈ acc ∨ a ∈ l := by
  induction l generalizing acc with
  | nil => simp
  | cons x xs ih =>
    simp only [List.foldl_cons, ih, mem_insertDesc, List.mem_cons]
    tauto

theorem mem_sortDesc {α : Type} (l : List (α × Nat)) (a : α × Nat) :
    a ∈ sortDesc l ↔ a ∈ l := by
  rw [sortDesc, mem_sortDesc_aux]
  simp

theorem filter_below {α : Type} (l : List (α × Nat)) (s : Nat)
    (h : ∀ p ∈ l, p.2 < s) : l.filter (fun p => p.2 == s) = [] := by
  induction l with
  | nil => rfl
  | cons y ys ih =>
    have hy : (y.2 == s) = false := by
      have := h y (List.mem_cons_self y ys)
      simp only [beq_eq_false_iff_ne, ne_eq]
      omega
    rw [List.filter_cons, hy]
    simp only [Bool.false_eq_true, if_false]
    exact ih (fun p hp => h p (List.mem_cons_of_mem y hp))

theorem filter_insertDesc {α : Type} (x : α × Nat) (l : List (α × Nat)) (s : Nat)
    (h : List.Pairwise (fun a b => b.2 ≤ a.2) l) :
    (insertDesc x l).filter (fun p => p.2 == s)
      = l.filter (fun p => p.2 == s) ++ (if x.2 == s then [x] else []) := by
  induction l with
  | nil => simp [insertDesc, List.filter_cons]
  | cons y ys ih =>
    rcases List.pairwise_cons.mp h with ⟨hy, hys⟩
    by_cases hle : x.2 ≤ y.2
    · rw [insertDesc, if_pos hle, List.filter_cons, List.filter_cons, ih hys]
      by_cases hyq : (y.2 == s) = true
      · simp [hyq]
      · simp [hyq]
    · rw [insertDesc, if_neg hle]
      by_cases hxq : (x.2 == s) = true
      · have hxs : x.2 = s := beq_iff_eq.mp hxq
        have hbelow : ∀ p ∈ y :: ys, p.2 < s := by
          intro p hp
          rcases List.mem_cons.mp hp with rfl | hp
          · omega
          · have := hy p hp
            omega
        rw [List.filter_cons]
        have hyz : (x.2 == s) = true := hxq
        simp only [hyz, if_pos]
        rw [filter_below (y :: ys) s hbelow]
        simp [hxq]
      · simp only [Bool.not_eq_true] at hxq
        rw [List.filter_cons]
        simp only [hxq, Bool.false_eq_true, if_false]
        simp [hxq]

theorem filter_sortDesc_aux {α : Type} (l acc : List (α × Nat)) (s : Nat)
    (h : List.Pairwise (fun a b => b.2 ≤ a.2) acc) :
    (l.foldl (fun acc x => insertDesc x acc) acc).filter (fun p => p.2 == s)
      = acc.filter (fun p => p.2 == s) ++ l.filter (fun p => p.2 == s) := by
  induction l generalizing acc with
  | nil => simp
  | cons x xs ih =>
    rw [List.foldl_cons, ih (insertDesc x acc) (insertDesc_sorted x acc h),
        filter_insertDesc x acc s h, List.filter_cons]
    by_cases hxq : (x.2 == s) = true
    · simp [hxq]
    · simp only [Bool.not_eq_true] at hxq
      simp [hxq]

/-- Stability of the sort, expressed per score class: for every score `s`,
the sorted list's records of score `s` are exactly the input's records of
score `s`, in input order. -/
theorem filter_sortDesc {α : Type} (l : List (α × Nat)) (s : Nat) :
    (sortDesc l).filter (fun p => p.2 == s) = l.filter (fun p => p.2 == s) := by
  rw [sortDesc, filter_sortDesc_aux l [] s (by simp)]
  rfl

/-! ## Claim C5: the cache key mapping is invariant under a leading slash -/

/-- C5: for every key `x`, `_cache_path ("/" ++ x) = _cache_path x` — the
key is sanitized by stripping leading separators (`page.lstrip("/")`)
before it is mapped to a file location. -/
theorem c5_cache_path_leading_sep (x : String) :
    _cache_path ("/" ++ x) = _cache_path x := by
  unfold _cache_path
  have h : ("/" ++ x).data.dropWhile (fun c => c == '/')
      = x.data.dropWhile (fun c => c == '/') := by
    rw [String.data_append]
    rfl
  rw [h]

/-- Witness for C5 at a concrete key. -/
theorem c5_cache_path_leading_sep_witness :
    _cache_path ("/" ++ "d3-array") = _cache_path "d3-array" :=
  c5_cache_path_leading_sep "d3-array"

/-! ## Claim C4: notebooks with no chart cell yield the fixed sentinel -/

/-- C4: whenever neither the async nor the sync chart-cell pattern matches
(`_extract_cell source "_chart" = none`), `extract_notebook_code` returns
the fixed sentinel string — never an empty or partial document — regardless
of descriptions, attachments, imports or other cells in the source. -/
theorem c4_no_chart_sentinel (source : String)
    (h : _extract_cell source "_chart" = none) :
    extract_notebook_code source = "No chart code found in this notebook." := by
  unfold extract_notebook_code
  rw [h]

/-- Witness for C4: a source with a description cell, an attachment and an
import, but no chart cell. -/
theorem c4_no_chart_sentinel_witness :
    extract_notebook_code
        "function _1(md)\x7breturn(md\x60hello\x60)\x7d\n[\"a.csv\", \x7burl: \"https://e/a\"\x7d]"
      = "No chart code found in this notebook." :=
  c4_no_chart_sentinel _ (by decide)

/-! ## Claim C3: a failed fetch never touches the cache -/

/-- C3: for every page key and notebook path, when the single GET fails
(timeout, transport error, 404, or any non-success status), `fetch_page`
and `fetch_notebook` return the raised error and leave the cache state
exactly as it was — any pre-existing stale entry included; and on success
the only write stores the fully produced extraction output at the key's
location. -/
theorem c3_fetch_failure_preserves_cache (reduce : String → String)
    (page nbpath : String) (r : FetchOutcome) (σ τ : Cache)
    (hr : r.fails = true) :
    (∃ e, fetch_page reduce page false r σ = (Except.error e, σ))
    ∧ (∃ e, fetch_notebook nbpath false r τ = (Except.error e, τ))
    ∧ (∀ (status : Nat) (body : String) (υ : Cache), 200 ≤ status → status < 300 →
        fetch_page reduce page false (FetchOutcome.response status body) υ
          = (Except.ok (reduce body), cacheWrite υ (_cache_path page) (reduce body)))
    ∧ (∀ (status : Nat) (body : String) (υ : Cache), 200 ≤ status → status < 300 →
        fetch_notebook nbpath false (FetchOutcome.response status body) υ
          = (Except.ok (extract_notebook_code body),
             cacheWrite υ (_example_cache_path nbpath) (extract_notebook_code body))) := by
  refine ⟨?_, ?_, ?_, ?_⟩
  · cases r with
    | timeout => exact ⟨_, rfl⟩
    | transportError m => exact ⟨_, rfl⟩
    | response status body =>
      simp only [FetchOutcome.fails, Bool.not_eq_true', decide_eq_false_iff_not] at hr
      by_cases h4 : status = 404
      · subst h4
        exact ⟨"Page not found: " ++ BASE_URL ++ page, by simp [fetch_page]⟩
      · exact ⟨"HTTP status error", by simp [fetch_page, h4, hr]⟩
  · cases r with
    | timeout => exact ⟨_, rfl⟩
    | transportError m => exact ⟨_, rfl⟩
    | response status body =>
      simp only [FetchOutcome.fails, Bool.not_eq_true', decide_eq_false_iff_not] at hr
      by_cases h4 : status = 404
      · subst h4
        exact ⟨"Notebook not found: " ++ nbpath, by simp [fetch_notebook]⟩
      · exact ⟨"HTTP status error", by simp [fetch_notebook, h4, hr]⟩
  · intro status body υ h1 h2
    have h4 : status ≠ 404 := by omega
    simp [fetch_page, h4, h1, h2]
  · intro status body υ h1 h2
    have h4 : status ≠ 404 := by omega
    simp [fetch_notebook, h4, h1, h2]

/-- Witness for C3 at a concrete timed-out fetch over an empty cache. -/
theorem c3_fetch_failure_preserves_cache_witness :
    ∃ e, fetch_page (fun s => s) "/d3-scale" false FetchOutcome.timeout (fun _ => none)
      = (Except.error e, fun _ => none) :=
  (c3_fetch_failure_preserves_cache (fun s => s) "/d3-scale" "@d3/bar-chart/2"
    FetchOutcome.timeout (fun _ => none) (fun _ => none) rfl).1

/-! ## Claim C7: positivity, descending order, stability, determinism -/

/-- C7: for every query and record list, `score_modules` and
`score_examples` return only strictly positive scores, sorted
non-increasing, with equal scores in input order (for every score value,
the score class of the output equals the score class of the input pair
list `modulePairs` / `examplePairs`), and scoring twice yields identical
output. -/
theorem c7_scoring_order (q : String) (ms : List D3Module) (es : List D3Example) :
    score_modules q ms = score_modules q ms
    ∧ (∀ p ∈ score_modules q ms, 0 < p.2)
    ∧ List.Pairwise (fun a b => b.2 ≤ a.2) (score_modules q ms)
    ∧ (∀ s, (score_modules q ms).filter (fun p => p.2 == s)
          = (modulePairs q ms).filter (fun p => p.2 == s))
    ∧ score_examples q es = score_examples q es
    ∧ (∀ p ∈ score_examples q es, 0 < p.2)
    ∧ List.Pairwise (fun a b => b.2 ≤ a.2) (score_examples q es)
    ∧ (∀ s, (score_examples q es).filter (fun p => p.2 == s)
          = (examplePairs q es).filter (fun p => p.2 == s)) := by
  refine ⟨rfl, ?_, sortDesc_sorted _, fun s => filter_sortDesc _ s,
          rfl, ?_, sortDesc_sorted _, fun s => filter_sortDesc _ s⟩
  · intro p hp
    have h1 : p ∈ modulePairs q ms := (mem_sortDesc _ p).mp hp
    unfold modulePairs at h1
    exact of_decide_eq_true (List.mem_filter.mp h1).2
  · intro p hp
    have h1 : p ∈ examplePairs q es := (mem_sortDesc _ p).mp hp
    unfold examplePairs at h1
    exact of_decide_eq_true (List.mem_filter.mp h1).2

/-- Witness for C7 at a concrete query and example list. -/
theorem c7_scoring_order_witness :
    0 < ((D3Example.mk "@d3/bar-chart/2" "Bar chart" "Bars" "D3", 22) : D3Example × Nat).2 :=
  (c7_scoring_order "bar chart" [] [D3Example.mk "@d3/bar-chart/2" "Bar chart" "Bars" "D3"]).2.2.2.2.2.1
    (D3Example.mk "@d3/bar-chart/2" "Bar chart" "Bars" "D3", 22) (by decide)

/-! ## Claim C8: the example title weights are mutually exclusive -/

/-- A pointwise description of an accumulating fold. -/
theorem foldl_add_pointwise (f : Nat → String → Nat) (g : String → Nat)
    (h : ∀ n t, f n t = n + g t) (terms : List String) (n : Nat) :
    terms.foldl f n = n + (terms.map g).sum := by
  induction terms generalizing n with
  | nil => simp
  | cons t ts ih =>
    rw [List.foldl_cons, ih, h, List.map_cons, List.sum_cons]
    omega

/-- The example scorer accumulates exactly the per-term contributions. -/
theorem exampleScore_eq_sum (terms : List String) (e : D3Example) :
    exampleScore terms e = (terms.map (fun t => exampleTermScore t e)).sum := by
  have h : exampleScore terms e = 0 + (terms.map (fun t => exampleTermScore t e)).sum := by
    unfold exampleScore
    exact foldl_add_pointwise _ _
      (fun n t => by
        simp only [exampleTermScore]
        split_ifs <;> omega)
      terms 0
  simpa using h

/-- C8: per query term, at most one of the two example title weights
applies — exactly 10 for an exact title-word match, else exactly 5 for a
partial substring match, never both (so a term contributes at most
10 + 3 + 1 = 14) — while the category weight 3 and path weight 1 still add
independently; the example scorer is the sum of these per-term
contributions.  Module scoring is asymmetric: there a single term can
stack all four weights (10 + 3 + 2 + 1 = 16). -/
theorem c8_title_weight_exclusive (term : String) (e : D3Example) (terms : List String) :
    (exampleTermScore term e
      = (if exactTitleWord term e then 10 else if partialTitle term e then 5 else 0)
        + (if term = pyLower e.category then 3 else 0)
        + (if pyIn term (pyLower e.path) then 1 else 0))
    ∧ exampleTermScore term e ≤ 14
    ∧ exampleScore terms e = (terms.map (fun t => exampleTermScore t e)).sum
    ∧ (∃ (t : String) (m : D3Module), moduleTermScore t m = 16) := by
  have heq : exampleTermScore term e
      = (if exactTitleWord term e then 10 else if partialTitle term e then 5 else 0)
        + (if term = pyLower e.category then 3 else 0)
        + (if pyIn term (pyLower e.path) then 1 else 0) := by
    simp only [exampleTermScore, exactTitleWord, partialTitle]
    split_ifs <;> omega
  refine ⟨heq, ?_, exampleScore_eq_sum terms e, ?_⟩
  · rw [heq]
    split_ifs <;> omega
  · exact ⟨"scale", D3Module.mk "scale" "scale stuff" ["scale"] [], by decide⟩

/-! ## Claim C6: query term decomposition -/

theorem upperSplit_cons_eq (c : Char) (l : List Char) :
    upperSplit (c :: l)
      = match upperSplit l with
        | [] => [[c]]
        | g :: gs => if headIsUpper g then [c] :: g :: gs else (c :: g) :: gs := rfl

theorem upperSplit_head (d : Char) (l : List Char) :
    ∃ t gs, upperSplit (d :: l) = (d :: t) :: gs := by
  induction l generalizing d with
  | nil => exact ⟨[], [], rfl⟩
  | cons e l2 ih =>
    rcases ih e with ⟨t, gs, h⟩
    by_cases he : e.isUpper
    · refine ⟨[], (e :: t) :: gs, ?_⟩
      rw [upperSplit_cons_eq d (e :: l2), h]
      simp [headIsUpper, he]
    · refine ⟨e :: t, gs, ?_⟩
      rw [upperSplit_cons_eq d (e :: l2), h]
      simp [headIsUpper, he]

theorem mem_of_mem_dropWhile (p : Char → Bool) (x : Char) :
    ∀ (l : List Char), x ∈ l.dropWhile p → x ∈ l := by
  intro l
  induction l with
  | nil => exact fun h => h
  | cons c rest ih =>
    intro h
    rw [List.dropWhile_cons] at h
    by_cases hc : p c
    · simp only [hc, if_true] at h
      exact List.mem_cons_of_mem c (ih h)
    · simpa [hc] using h

theorem length_dropWhile_le' (p : Char → Bool) (l : List Char) :
    (l.dropWhile p).length ≤ l.length := by
  induction l with
  | nil => simp
  | cons c rest ih =>
    rw [List.dropWhile_cons]
    by_cases hc : p c
    · simp only [hc, if_true]
      exact le_trans ih (Nat.le_succ _)
    · simp [hc]

/-- A lowercase ASCII letter is not uppercase. -/
theorem isLower_not_isUpper (c : Char) (h : c.isLower = true) : c.isUpper = false := by
  simp only [Char.isLower, Char.isUpper, ge_iff_le, Bool.and_eq_true, decide_eq_true_eq,
    UInt32.le_def, BitVec.le_def, UInt32.toBitVec_ofNat, BitVec.toNat_ofNat] at h ⊢
  simp only [Bool.and_eq_false_iff, decide_eq_false_iff_not, UInt32.le_def, BitVec.le_def, not_le]
  omega

/-- Splitting before every uppercase letter distributes over the leading
maximal lowercase run (for alphabetic tails). -/
theorem upperSplit_cons_run (c : Char) (rest : List Char) :
    (∀ x ∈ rest, x.isAlpha = true) →
    upperSplit (c :: rest)
      = (c :: rest.takeWhile Char.isLower) :: upperSplit (rest.dropWhile Char.isLower) := by
  induction rest generalizing c with
  | nil => intro _; rfl
  | cons d rest2 ih =>
    intro h
    have hrest2 : ∀ x ∈ rest2, x.isAlpha = true :=
      fun x hx => h x (List.mem_cons_of_mem d hx)
    by_cases hd : d.isLower
    · have e1 := ih d hrest2
      have hdu : d.isUpper = false := isLower_not_isUpper d hd
      rw [upperSplit_cons_eq c (d :: rest2), e1]
      simp [headIsUpper, hdu, List.takeWhile_cons, List.dropWhile_cons, hd, e1]
    · have hdu : d.isUpper = true := by
        have := h d (List.mem_cons_self d rest2)
        simp only [Char.isAlpha, Bool.or_eq_true] at this
        rcases this with h1 | h1
        · exact h1
        · exact absurd h1 (by simp [hd])
      rcases upperSplit_head d rest2 with ⟨t, gs, hshape⟩
      rw [upperSplit_cons_eq c (d :: rest2), hshape]
      simp [headIsUpper, hdu, List.takeWhile_cons, List.dropWhile_cons, hd, hshape]

/-- The regex decomposition `[a-z]+|[A-Z][a-z]*` agrees, on alphabetic
input, with splitting before every uppercase letter. -/
theorem camelFindall_eq_upperSplit :
    ∀ (fuel : Nat) (cs : List Char), cs.length ≤ fuel →
    (∀ c ∈ cs, c.isAlpha = true) → camelFindall fuel cs = upperSplit cs := by
  intro fuel
  induction fuel with
  | zero =>
    intro cs hl _
    have h0 : cs = [] := List.length_eq_zero.mp (Nat.le_zero.mp hl)
    subst h0
    rfl
  | succ fuel ih =>
    intro cs hl halpha
    match cs with
    | [] => rfl
    | c :: rest =>
      have hrest : ∀ x ∈ rest, x.isAlpha = true :=
        fun x hx => halpha x (List.mem_cons_of_mem c hx)
      have htail : camelFindall fuel (rest.dropWhile Char.isLower)
          = upperSplit (rest.dropWhile Char.isLower) := by
        apply ih
        · have h1 := length_dropWhile_le' Char.isLower rest
          have h2 : rest.length + 1 ≤ fuel + 1 := by simpa using hl
          omega
        · exact fun x hx => hrest x (mem_of_mem_dropWhile _ _ rest hx)
      by_cases hc : c.isLower
      · simp only [camelFindall, hc, if_true]
        rw [upperSplit_cons_run c rest hrest, htail]
      · by_cases hcu : c.isUpper
        · simp only [camelFindall, hc, hcu, Bool.false_eq_true, if_false, if_true]
          rw [upperSplit_cons_run c rest hrest, htail]
        · exact absurd (halpha c (List.mem_cons_self c rest))
            (by simp [Char.isAlpha, hc, hcu])

/-- C6 counterexample: the claim's rule — decomposition exactly at
lowercase-to-uppercase transitions — predicts `["ab"]` for the token `AB`
(no such transition), but `_split_terms` decomposes it into
`["a", "b", "ab"]`: the regex also splits between two uppercase letters. -/
theorem c6_camel_split_counterexample :
    _split_terms "AB" = ["a", "b", "ab"]
    ∧ splitTermsLcUc "AB" = ["ab"]
    ∧ _split_terms "AB" ≠ splitTermsLcUc "AB" := by decide

/-- C6 amended: the concrete examples hold (`"scaleLinear"` →
`["scale", "linear", "scalelinear"]`, `"bar chart"` → `["bar", "chart"]`),
and in general an alphabetic token is decomposed before **every** uppercase
letter (not only at lowercase-to-uppercase transitions); the lowercased
token is added alongside exactly when this yields more than one sub-word. -/
theorem c6_camel_split_amended :
    _split_terms "scaleLinear" = ["scale", "linear", "scalelinear"]
    ∧ _split_terms "bar chart" = ["bar", "chart"]
    ∧ (∀ cs : List Char, (∀ c ∈ cs, c.isAlpha = true) → camelParts cs = upperSplit cs) := by
  refine ⟨by decide, by decide, ?_⟩
  intro cs h
  exact camelFindall_eq_upperSplit cs.length cs (le_refl _) h

/-! ## Claim C2: section search does not use the camel-decomposed terms -/

/-- C2 counterexample: querying sections for `"scaleLinear"` scores with the
single undecomposed term `"scalelinear"` only — a section whose heading
contains `"scale"` and `"linear"` (but not `"scalelinear"`) scores zero in
`search_sections`, while the spec's unified tokenization
(`searchSectionsSpec`, using `_split_terms`) would return it. -/
theorem c2_section_terms_counterexample :
    search_sections "scaleLinear" [Section.mk "linear scale" "maps a continuous domain"] 10 = []
    ∧ searchSectionsSpec "scaleLinear" [Section.mk "linear scale" "maps a continuous domain"] 10
        = [Section.mk "linear scale" "maps a continuous domain"]
    ∧ search_sections "scaleLinear" [Section.mk "linear scale" "maps a continuous domain"] 10
        ≠ searchSectionsSpec "scaleLinear" [Section.mk "linear scale" "maps a continuous domain"] 10 := by
  decide

/-- C2 amended: `score_modules` and `score_examples` score with the
camel-decomposed `_split_terms`, but `search_sections` tokenizes with a
plain lowercase whitespace split; the two tokenizations (and hence section
search under either) agree exactly when no query token decomposes. -/
theorem c2_section_terms_amended :
    (∀ (q : String) (ss : List Section) (n : Nat),
        _split_terms q = pySplitWs (pyLower q) →
        searchSectionsSpec q ss n = search_sections q ss n)
    ∧ score_examples "scaleLinear" [D3Example.mk "@d3/x" "linear scale" "" "D3"] ≠ []
    ∧ score_modules "scaleLinear" [D3Module.mk "d3-scale" "" ["linear"] []] ≠ []
    ∧ search_sections "scaleLinear" [Section.mk "linear scale" "x"] 10 = [] := by
  refine ⟨?_, by decide, by decide, by decide⟩
  intro q ss n h
  unfold searchSectionsSpec search_sections
  rw [h]

/-! ## Claim C10: section parsing discards everything before the first trigger -/

theorem parseSectionsGo_acc_irrel (ls : List String) (acc acc' : List String) :
    parseSectionsGo ls none acc = parseSectionsGo ls none acc' := by
  induction ls generalizing acc acc' with
  | nil => rfl
  | cons line rest ih =>
    cases hh : headingOf line with
    | some h => simp only [parseSectionsGo, hh]
    | none =>
      cases ha : anchorOf line with
      | some a => simp only [parseSectionsGo, hh, ha]
      | none =>
        simp only [parseSectionsGo, hh, ha]
        exact ih _ _

/-- C10: `parse_sections` discards any prefix of lines before the first
heading or anchor trigger — the parse of `pre ++ rest` equals the parse of
`rest` alone when no line of `pre` triggers, so prefix prose appears in no
returned section's content; and a document with no triggering line at all
yields the empty section list. -/
theorem c10_prefix_discarded :
    (∀ (pre rest : List String),
        (∀ l ∈ pre, headingOf l = none ∧ anchorOf l = none) →
        parseSectionsGo (pre ++ rest) none [] = parseSectionsGo rest none [])
    ∧ (∀ doc : String,
        (∀ l ∈ pySplitChar '\n' doc, headingOf l = none ∧ anchorOf l = none) →
        parse_sections doc = []) := by
  have hpre : ∀ (pre rest : List String),
      (∀ l ∈ pre, headingOf l = none ∧ anchorOf l = none) →
      parseSectionsGo (pre ++ rest) none [] = parseSectionsGo rest none [] := by
    intro pre
    induction pre with
    | nil => intro rest _; rfl
    | cons l pre' ih =>
      intro rest h
      rcases h l (List.mem_cons_self l pre') with ⟨h1, h2⟩
      have hrest : ∀ x ∈ pre', headingOf x = none ∧ anchorOf x = none :=
        fun x hx => h x (List.mem_cons_of_mem l hx)
      calc parseSectionsGo ((l :: pre') ++ rest) none []
          = parseSectionsGo (pre' ++ rest) none ([] ++ [l]) := by
            simp only [List.cons_append, parseSectionsGo, h1, h2]
            rfl
        _ = parseSectionsGo (pre' ++ rest) none [] := parseSectionsGo_acc_irrel _ _ _
        _ = parseSectionsGo rest none [] := ih rest hrest
  refine ⟨hpre, ?_⟩
  intro doc h
  have h2 := hpre (pySplitChar '\n' doc) [] h
  rw [List.append_nil] at h2
  unfold parse_sections
  exact h2

/-! ## Claim C1: the dependency-comment line's filter -/

theorem strHas_trans (a b c : String) (h1 : strHas a b) (h2 : strHas b c) : strHas a c := by
  rcases h1 with ⟨u1, v1, e1⟩
  rcases h2 with ⟨u2, v2, e2⟩
  exact ⟨u2 ++ u1, v1 ++ v2, by rw [e2, e1]; simp [List.append_assoc]⟩

theorem strHas_mem_pyJoin (sep a : String) (l : List String) (h : a ∈ l) :
    strHas a (pyJoin sep l) := by
  induction l with
  | nil => cases h
  | cons x xs ih =>
    rcases List.mem_cons.mp h with rfl | hmem
    · cases xs with
      | nil => exact ⟨[], [], by simp [pyJoin]⟩
      | cons y ys =>
        refine ⟨[], (sep ++ pyJoin sep (y :: ys)).data, ?_⟩
        simp [pyJoin, String.data_append, List.append_assoc]
    · cases xs with
      | nil => cases hmem
      | cons y ys =>
        rcases ih hmem with ⟨u, v, e⟩
        refine ⟨(x ++ sep).data ++ u, v, ?_⟩
        simp [pyJoin, String.data_append, e, List.append_assoc]

theorem pyJoin_cons_ne (sep x : String) (l : List String) (h : l ≠ []) :
    pyJoin sep (x :: l) = x ++ sep ++ pyJoin sep l := by
  cases l with
  | nil => exact absurd rfl h
  | cons y ys => rfl

/-- When any non-environment chart parameter exists, the assembled code
block starts with the dependency-comment line and a newline. -/
theorem assembleCode_depline (helper_code : List String) (params body : String)
    (hd : chartDepParams params ≠ []) :
    ∃ rest, (assembleCode helper_code params body).data
      = (depLine (chartDepParams params)).data ++ '\n' :: rest := by
  have hne : (chartDepParams params).isEmpty = false := by
    cases hcp : chartDepParams params with
    | nil => exact absurd hcp hd
    | cons a b => rfl
  have hL : (if helper_code.isEmpty then ([] : List String) else helper_code ++ [""]) ++ [body]
      ≠ [] := by
    intro hcon
    rcases List.append_eq_nil.mp hcon with ⟨_, h2⟩
    cases h2
  refine ⟨(pyJoin "\n"
      ((if helper_code.isEmpty then ([] : List String) else helper_code ++ [""]) ++ [body])).data, ?_⟩
  simp only [assembleCode, hne, Bool.false_eq_true, if_false, List.singleton_append,
    List.cons_append, List.nil_append]
  rw [pyJoin_cons_ne _ _ _ hL]
  simp [String.data_append]

/-- C1 counterexample: the claim says `height` (a reserved environment name)
never appears in the dependency-comment line; but the assembly filter
excludes only `d3`, `invalidation` and `width`, so a chart cell with
parameter list `d3,height` yields the line `// Dependencies: height`. -/
theorem c1_dependency_line_counterexample :
    _extract_cell "function _chart(d3,height) \x7breturn 1\x7d" "_chart"
      = some ("_chart", "d3,height", "return 1")
    ∧ extract_notebook_code "function _chart(d3,height) \x7breturn 1\x7d"
      = "\x60\x60\x60js\n// Dependencies: height\nreturn 1\n\x60\x60\x60" := by
  exact ⟨by decide, by decide⟩

/-- C1 amended: the dependency-comment line lists exactly the chart cell's
parameters outside the three-name tuple `d3`, `invalidation`, `width`
(so `height`, `topojson` and `DOM` do appear when present); the six-name
reserved set applies only to the helper data-cell selection.  Whenever that
filter is nonempty, the emitted document contains the line
`// Dependencies: <filtered params>` followed by a newline. -/
theorem c1_dependency_line_amended (source n params body : String)
    (h : _extract_cell source "_chart" = some (n, params, body))
    (hd : chartDepParams params ≠ []) :
    strHas (depLine (chartDepParams params) ++ "\n") (extract_notebook_code source) := by
  rcases assembleCode_depline (helperLines source) params body hd with ⟨rest, hcode⟩
  have h1 : strHas (depLine (chartDepParams params) ++ "\n")
      (assembleCode (helperLines source) params body) :=
    ⟨[], rest, by simp [hcode, String.data_append]⟩
  have h2 : strHas (assembleCode (helperLines source) params body)
      ("```js\n" ++ assembleCode (helperLines source) params body ++ "\n```") :=
    ⟨"```js\n".data, "\n```".data, by simp [String.data_append]⟩
  have h3 : strHas ("```js\n" ++ assembleCode (helperLines source) params body ++ "\n```")
      (extract_notebook_code source) := by
    unfold extract_notebook_code
    rw [h]
    apply strHas_mem_pyJoin
    simp [List.mem_append]
  exact strHas_trans _ _ _ (strHas_trans _ _ _ h1 h2) h3

/-- Witness for the amended C1 at the counterexample's notebook source. -/
theorem c1_dependency_line_amended_witness :
    strHas (depLine (chartDepParams "d3,height") ++ "\n")
      (extract_notebook_code "function _chart(d3,height) \x7breturn 1\x7d") :=
  c1_dependency_line_amended "function _chart(d3,height) \x7breturn 1\x7d"
    "_chart" "d3,height" "return 1" (by decide) (by decide)

/-! ## Claim C9: the scanner is opaque to braces in strings and comments -/

theorem skipStr_spec (q : Char) (hq : (q == '\\') = false) :
    ∀ (n : Nat) (c : List Char), c.length ≤ n → strOk q c = true →
    ∀ s, skipStr q (c ++ q :: s) = (c ++ [q], s) := by
  intro n
  induction n with
  | zero =>
    intro c hl _ s
    have h0 : c = [] := List.length_eq_zero.mp (Nat.le_zero.mp hl)
    subst h0
    rw [List.nil_append, skipStr.eq_def]
    simp [hq]
  | succ n ih =>
    intro c hl hok s
    match c with
    | [] =>
      rw [List.nil_append, skipStr.eq_def]
      simp [hq]
    | x :: rest =>
      by_cases hx : (x == '\\') = true
      · match rest with
        | [] => simp [strOk, hx] at hok
        | d :: rest2 =>
          have hok2 : strOk q rest2 = true := by
            simpa [strOk, hx] using hok
          have hlen : rest2.length ≤ n := by
            simp only [List.length_cons] at hl
            omega
          have hrec := ih rest2 hlen hok2 s
          simp only [List.cons_append]
          rw [skipStr.eq_def]
          simp [hx, hrec]
      · have hx' : (x == '\\') = false := by simpa using hx
        have hparts : (x == q) = false ∧ strOk q rest = true := by
          have h2 := hok
          rw [strOk.eq_def] at h2
          simp only [hx', Bool.false_eq_true, if_false, Bool.and_eq_true,
            Bool.not_eq_true'] at h2
          exact h2
        have hlen : rest.length ≤ n := by
          simp only [List.length_cons] at hl
          omega
        have hrec := ih rest hlen hparts.2 s
        simp only [List.cons_append]
        rw [skipStr.eq_def]
        simp [hx', hparts.1, hrec]

theorem skipLine_spec :
    ∀ (c : List Char), (∀ x ∈ c, (x == '\n') = false) →
    ∀ s, skipLine (c ++ '\n' :: s) = (c ++ ['\n'], s) := by
  intro c
  induction c with
  | nil =>
    intro _ s
    rw [List.nil_append, skipLine.eq_def]
    simp
  | cons x rest ih =>
    intro h s
    have hx := h x (List.mem_cons_self x rest)
    have hrec := ih (fun y hy => h y (List.mem_cons_of_mem x hy)) s
    simp only [List.cons_append]
    rw [skipLine.eq_def]
    simp [hx, hrec]

theorem skipBlock_cons_ne (x : Char) (l : List Char)
    (h : (x == '*' && headIs '/' l) = false) :
    skipBlock (x :: l) = (x :: (skipBlock l).1, (skipBlock l).2) := by
  rw [skipBlock.eq_def]
  split
  · rename_i heq
    rw [List.cons_eq_cons] at heq
    rcases heq with ⟨rfl, rfl⟩
    simp [headIs] at h
  · rename_i c rest hguard heqc
    rw [List.cons_eq_cons] at heqc
    rcases heqc with ⟨rfl, rfl⟩
    rcases hsb : skipBlock l with ⟨a, b⟩
    simp [hsb]
  · rename_i heq
    cases heq

theorem skipBlock_spec :
    ∀ (c : List Char), blockOk c = true →
    ∀ s, skipBlock (c ++ '*' :: '/' :: s) = (c ++ ['*', '/'], s) := by
  intro c
  induction c with
  | nil => intro _ s; rfl
  | cons x rest ih =>
    intro h s
    have hcond : (x == '*' && headIs '/' rest) = false := by
      by_cases hc : (x == '*' && headIs '/' rest) = true
      · simp [blockOk, hc] at h
      · simpa using hc
    have hok : blockOk rest = true := by
      simpa [blockOk, hcond] using h
    have hcond2 : (x == '*' && headIs '/' (rest ++ '*' :: '/' :: s)) = false := by
      cases rest with
      | nil =>
        simp only [List.nil_append, headIs]
        by_cases hx : (x == '*') = true
        · simp [hx]
        · simp [show (x == '*') = false by simpa using hx]
      | cons y rest2 =>
        simpa [headIs] using hcond
    rw [List.cons_append, skipBlock_cons_ne x _ hcond2, ih hok s]
    simp

/-- The three string quotes are none of the scanner's brace, escape or
slash characters. -/
theorem quote_class (q : Char) (h : (q == '"' || q == '\x27' || q == '\x60') = true) :
    (q == '\x7b') = false ∧ (q == '\x7d') = false ∧ (q == '\\') = false := by
  have h2 : (q = '"' ∨ q = '\x27') ∨ q = '\x60' := by
    simpa [Bool.or_eq_true, beq_iff_eq] using h
  rcases h2 with (rfl | rfl) | rfl <;> exact ⟨by decide, by decide, by decide⟩

theorem goBody_lbrace (fuel d : Nat) (s : List Char) :
    goBody (fuel + 1) ('\x7b' :: s) d
      = (goBody fuel s (d + 1)).map (fun r => '\x7b' :: r) := by
  rw [goBody.eq_def]
  simp

theorem goBody_rbrace (fuel d : Nat) (s : List Char) (hd : 2 ≤ d) :
    goBody (fuel + 1) ('\x7d' :: s) d
      = (goBody fuel s (d - 1)).map (fun r => '\x7d' :: r) := by
  rw [goBody.eq_def]
  simp [show ¬(d = 1) by omega]

theorem goBody_close (fuel : Nat) (s : List Char) :
    goBody (fuel + 1) ('\x7d' :: s) 1 = some [] := by
  rw [goBody.eq_def]
  simp

theorem goBody_strLit (fuel d : Nat) (q : Char) (content s : List Char)
    (h3 : (q == '"' || q == '\x27' || q == '\x60') = true)
    (hok : strOk q content = true) :
    goBody (fuel + 1) (q :: (content ++ q :: s)) d
      = (goBody fuel s d).map (fun r => q :: (content ++ [q]) ++ r) := by
  rcases quote_class q h3 with ⟨h1, h2, h4⟩
  have hskip := skipStr_spec q h4 content.length content (le_refl _) hok s
  rw [goBody.eq_def]
  simp [h1, h2, h3, hskip, List.append_assoc]

theorem goBody_lineComment (fuel d : Nat) (content s : List Char)
    (h : ∀ x ∈ content, (x == '\n') = false) :
    goBody (fuel + 1) ('/' :: '/' :: (content ++ '\n' :: s)) d
      = (goBody fuel s d).map (fun r => '/' :: '/' :: (content ++ ['\n']) ++ r) := by
  have hskip := skipLine_spec content h s
  rw [goBody.eq_def]
  simp [hskip, List.append_assoc]

theorem goBody_blockComment (fuel d : Nat) (content s : List Char)
    (hok : blockOk content = true) :
    goBody (fuel + 1) ('/' :: '*' :: (content ++ '*' :: '/' :: s)) d
      = (goBody fuel s d).map (fun r => '/' :: '*' :: (content ++ ['*', '/']) ++ r) := by
  have hskip := skipBlock_spec content hok s
  rw [goBody.eq_def]
  simp [hskip, List.append_assoc]

theorem goBody_other (fuel d : Nat) (c : Char) (s : List Char)
    (h : specialChar c = false) :
    goBody (fuel + 1) (c :: s) d = (goBody fuel s d).map (fun r => c :: r) := by
  simp only [specialChar, Bool.or_eq_false_iff] at h
  rcases h with ⟨⟨⟨⟨⟨h1, h2⟩, h3⟩, h4⟩, h5⟩, h6⟩
  rw [goBody.eq_def]
  simp [h1, h2, h3, h4, h5, h6]

/-- The scanner consumes the rendering of a well-formed token list in one
pass: depth changes only at the braces, and braces inside string literals
and comments are invisible. -/
theorem goBody_renderToks :
    ∀ (toks : List JTok) (fuel d d' : Nat) (s : List Char),
      (∀ t ∈ toks, t.wf = true) → braceRun toks d = some d' → 1 ≤ d →
      goBody (toks.length + fuel) (renderToks toks ++ s) d
        = (goBody fuel s d').map (fun r => renderToks toks ++ r) := by
  intro toks
  induction toks with
  | nil =>
    intro fuel d d' s _ hbr _
    have hd : d = d' := by
      have h2 : some d = some d' := by simpa [braceRun] using hbr
      exact Option.some.inj h2
    subst hd
    simp only [List.length_nil, Nat.zero_add, renderToks, List.nil_append]
    cases goBody fuel s d <;> simp
  | cons t ts ih =>
    intro fuel d d' s hwf hbr hd
    have hwt : t.wf = true := hwf t (List.mem_cons_self t ts)
    have hwts : ∀ x ∈ ts, x.wf = true := fun x hx => hwf x (List.mem_cons_of_mem t hx)
    have hlen : (t :: ts).length + fuel = (ts.length + fuel) + 1 := by
      simp only [List.length_cons]
      omega
    rw [hlen]
    cases t with
    | lbrace =>
      have hbr2 : braceRun ts (d + 1) = some d' := by simpa [braceRun] using hbr
      have hih := ih fuel (d + 1) d' s hwts hbr2 (by omega)
      simp only [renderToks, JTok.render, List.cons_append, List.nil_append]
      rw [goBody_lbrace, hih]
      cases goBody fuel s d' <;> simp
    | rbrace =>
      by_cases hd1 : d ≤ 1
      · simp [braceRun, hd1] at hbr
      · have hbr2 : braceRun ts (d - 1) = some d' := by simpa [braceRun, hd1] using hbr
        have hih := ih fuel (d - 1) d' s hwts hbr2 (by omega)
        simp only [renderToks, JTok.render, List.cons_append, List.nil_append]
        rw [goBody_rbrace _ _ _ (by omega), hih]
        cases goBody fuel s d' <;> simp
    | strLit q content =>
      have hparts : (q == '"' || q == '\x27' || q == '\x60') = true ∧ strOk q content = true := by
        simpa [JTok.wf, Bool.and_eq_true] using hwt
      have hbr2 : braceRun ts d = some d' := by simpa [braceRun] using hbr
      have hih := ih fuel d d' s hwts hbr2 hd
      simp only [renderToks, JTok.render, List.cons_append, List.append_assoc,
        List.singleton_append, List.nil_append]
      rw [goBody_strLit (ts.length + fuel) d q content (renderToks ts ++ s) hparts.1 hparts.2, hih]
      cases goBody fuel s d' <;> simp [List.append_assoc]
    | lineComment content =>
      have hall : ∀ x ∈ content, (x == '\n') = false := by
        have h2 : content.all (fun x => x != '\n') = true := by
          simpa [JTok.wf] using hwt
        intro x hx
        have h3 := List.all_eq_true.mp h2 x hx
        simpa [bne] using h3
      have hbr2 : braceRun ts d = some d' := by simpa [braceRun] using hbr
      have hih := ih fuel d d' s hwts hbr2 hd
      simp only [renderToks, JTok.render, List.cons_append, List.append_assoc,
        List.singleton_append, List.nil_append]
      rw [goBody_lineComment (ts.length + fuel) d content (renderToks ts ++ s) hall, hih]
      cases goBody fuel s d' <;> simp [List.append_assoc]
    | blockComment content =>
      have hok : blockOk content = true := by simpa [JTok.wf] using hwt
      have hbr2 : braceRun ts d = some d' := by simpa [braceRun] using hbr
      have hih := ih fuel d d' s hwts hbr2 hd
      simp only [renderToks, JTok.render, List.cons_append, List.append_assoc,
        List.singleton_append, List.nil_append]
      rw [goBody_blockComment (ts.length + fuel) d content (renderToks ts ++ s) hok, hih]
      cases goBody fuel s d' <;> simp [List.append_assoc]
    | other c =>
      have hc : specialChar c = false := by simpa [JTok.wf] using hwt
      have hbr2 : braceRun ts d = some d' := by simpa [braceRun] using hbr
      have hih := ih fuel d d' s hwts hbr2 hd
      simp only [renderToks, JTok.render, List.cons_append, List.nil_append]
      rw [goBody_other (ts.length + fuel) d c (renderToks ts ++ s) hc, hih]
      cases goBody fuel s d' <;> simp

/-- Each token renders to at least one character. -/
theorem renderToks_length_ge (toks : List JTok) : toks.length ≤ (renderToks toks).length := by
  induction toks with
  | nil => simp [renderToks]
  | cons t ts ih =>
    have h1 : 1 ≤ t.render.length := by
      cases t <;> simp [JTok.render]
    simp only [renderToks, List.length_append, List.length_cons]
    omega

/-- C9: for every well-formed token sequence (string literals that may
contain `}`, line and block comments that may contain `{`/`}`, braces,
ordinary characters) whose braces are balanced above the opening depth,
the scanner extracts exactly the rendered sequence, trimmed: a `}` inside a
quoted literal does not terminate extraction early, braces inside comments
do not change the depth counter, and the body is the text up to the brace
at which the depth returns to zero. -/
theorem c9_scanner_extraction (toks : List JTok) (s : List Char)
    (hwf : ∀ t ∈ toks, t.wf = true) (hbal : braceRun toks 1 = some 1) :
    _extract_function_body (renderToks toks ++ '\x7d' :: s)
      = (⟨trimChars (renderToks toks)⟩ : String)
    ∧ (∀ fuel, goBody (toks.length + (fuel + 1)) (renderToks toks ++ '\x7d' :: s) 1
        = some (renderToks toks)) := by
  have key : ∀ fuel, goBody (toks.length + (fuel + 1)) (renderToks toks ++ '\x7d' :: s) 1
      = some (renderToks toks) := by
    intro fuel
    rw [goBody_renderToks toks (fuel + 1) 1 1 ('\x7d' :: s) hwf hbal (le_refl 1)]
    rw [goBody_close]
    simp
  refine ⟨?_, key⟩
  unfold _extract_function_body
  obtain ⟨m, hm⟩ : ∃ m, (renderToks toks ++ '\x7d' :: s).length + 1 = toks.length + (m + 1) := by
    have h1 := renderToks_length_ge toks
    refine ⟨(renderToks toks ++ '\x7d' :: s).length - toks.length, ?_⟩
    simp only [List.length_append, List.length_cons] at *
    omega
  rw [hm, key m]

/-- Witness for C9: a token sequence with a `}` inside a double-quoted
string, `{`s inside a line comment, a nested brace pair, and a `}` inside a
block comment. -/
theorem c9_scanner_extraction_witness :
    _extract_function_body
        (renderToks [JTok.other 'x', JTok.strLit '"' ['a', '\x7d', 'b'],
            JTok.lineComment ['\x7b', '\x7b'], JTok.lbrace, JTok.other 'y', JTok.rbrace,
            JTok.blockComment ['\x7d']] ++ '\x7d' :: ['!'])
      = (⟨trimChars (renderToks [JTok.other 'x', JTok.strLit '"' ['a', '\x7d', 'b'],
            JTok.lineComment ['\x7b', '\x7b'], JTok.lbrace, JTok.other 'y', JTok.rbrace,
            JTok.blockComment ['\x7d']])⟩ : String) :=
  (c9_scanner_extraction
    [JTok.other 'x', JTok.strLit '"' ['a', '\x7d', 'b'],
      JTok.lineComment ['\x7b', '\x7b'], JTok.lbrace, JTok.other 'y', JTok.rbrace,
      JTok.blockComment ['\x7d']]
    ['!'] (by decide) (by decide)).1

end D3MCP

